import Mathlib

/-!
Verification of the planning/scheduling core of the `calendar` workforce
scheduler (backend/app/services).  The Python services are shallowly embedded:

* machine data rows become Lean structures (ids are `String`s, calendar dates
  are day ordinals (`Nat`), hours-of-day and durations are `Nat`);
* the database is an explicit `DB` record of entity lists, and every mutating
  service operation is a function `DB → Result × DB`;
* Python float ratios (`used / available`) are modelled as `ℚ`: all operands
  are small integers, for which IEEE division is exact enough that float
  comparison agrees with the rational one.

Every definition mirrors a concrete function of the source tree; the doc
comment of each definition names the Python symbol it embeds.
-/

namespace Calendar

/-- Embeds `app/models/work.py`: `ChunkStatus`. -/
inductive ChunkStatus where
  | created | planned | assigned | in_progress | completed
deriving DecidableEq, Repr

/-- Embeds `app/models/work.py`: `WorkStatus`. -/
inductive WorkStatus where
  | draft | created | ready | scheduling | assigned | in_progress | completed | documented
deriving DecidableEq, Repr

/-- Embeds `app/models/work.py`: `WorkType`. -/
inductive WorkType where
  | general | support
deriving DecidableEq, Repr

/-- Embeds `app/models/work.py`: `Priority`. -/
inductive Priority where
  | low | medium | high | critical
deriving DecidableEq, Repr

/-- Embeds `app/models/work.py`: `ChunkLinkType`. -/
inductive ChunkLinkType where
  | sync | dependency
deriving DecidableEq, Repr

/-- Embeds `app/models/planning_session.py`: `PlanningSessionStatus`. -/
inductive SessionStatus where
  | draft | applied | cancelled | expired
deriving DecidableEq, Repr

/-- Embeds `app/models/work.py`: `WorkTask` contribution to a chunk
(`estimated_hours`, `quantity`). -/
structure WorkTask where
  estimated_hours : Nat
  quantity : Nat
deriving DecidableEq, Repr

/-- Embeds `app/models/work.py`: `WorkChunk` row (assignment triple nullable). -/
structure WorkChunk where
  id : String
  work_id : String
  order : Nat
  status : ChunkStatus
  data_center_id : Option String
  tasks : List WorkTask
  assigned_engineer_id : Option String
  assigned_date : Option Nat
  assigned_start_time : Option Nat
deriving DecidableEq, Repr

/-- Embeds `WorkChunk.duration_hours` property: `Σ task.estimated_hours * task.quantity`. -/
def WorkChunk.duration_hours (c : WorkChunk) : Nat :=
  (c.tasks.map (fun t => t.estimated_hours * t.quantity)).sum

/-- Embeds `app/models/work.py`: `Work` row (planning-relevant columns). -/
structure Work where
  id : String
  work_type : WorkType
  priority : Priority
  status : WorkStatus
  due_date : Option Nat
  data_center_id : Option String
  target_date : Option Nat
  target_time : Option Nat
deriving DecidableEq, Repr

/-- Embeds `app/models/engineer.py`: `Engineer` row. -/
structure Engineer where
  id : String
  name : String
  region_id : String
deriving DecidableEq, Repr

/-- Embeds `app/models/engineer.py`: `TimeSlot` row: a work window on one date. -/
structure TimeSlot where
  engineer_id : String
  date : Nat
  start_hour : Nat
  end_hour : Nat
deriving DecidableEq, Repr

/-- Embeds `app/models/work.py`: `ChunkLink` row. -/
structure ChunkLink where
  chunk_id : String
  linked_chunk_id : String
  link_type : ChunkLinkType
deriving DecidableEq, Repr

/-- One element of `PlanningSession.assignments` (the JSON dict built by
`SlotSuggestion.to_dict` plus `chunk_id`/`work_id`). -/
structure Assignment where
  chunk_id : String
  work_id : String
  engineer_id : String
  date : Nat
  start_time : Nat
  duration_hours : Nat
  dc_id : Option String
deriving DecidableEq, Repr

/-- Embeds `app/models/planning_session.py`: `PlanningSession` row. -/
structure PlanningSession where
  id : String
  status : SessionStatus
  assignments : List Assignment
deriving DecidableEq, Repr

/-- The relational store: one list per table, plus `date.today()` as a day
ordinal (the services read the clock only through `date.today()`). -/
structure DB where
  chunks : List WorkChunk
  works : List Work
  engineers : List Engineer
  time_slots : List TimeSlot
  distances : List ((String × String) × Nat)
  dc_regions : List (String × String)
  links : List ChunkLink
  sessions : List PlanningSession
  today : Nat
deriving DecidableEq, Repr

/-- Embeds `SELECT ... WHERE WorkChunk.id == cid` (first row). -/
def DB.getChunk (db : DB) (cid : String) : Option WorkChunk :=
  db.chunks.find? (fun c => c.id = cid)

/-- Embeds `db.get(Work, wid)`. -/
def DB.getWork (db : DB) (wid : String) : Option Work :=
  db.works.find? (fun w => w.id = wid)

/-- Embeds `db.get(PlanningSession, sid)`. -/
def DB.getSession (db : DB) (sid : String) : Option PlanningSession :=
  db.sessions.find? (fun s => s.id = sid)

/-- ORM row mutation: replace the chunk with the given id. -/
def DB.updateChunk (db : DB) (cid : String) (f : WorkChunk → WorkChunk) : DB :=
  { db with chunks := db.chunks.map (fun c => if c.id = cid then f c else c) }

/-- ORM row mutation: replace the work with the given id. -/
def DB.updateWork (db : DB) (wid : String) (f : Work → Work) : DB :=
  { db with works := db.works.map (fun w => if w.id = wid then f w else w) }

/-- ORM row mutation: replace the session with the given id. -/
def DB.updateSession (db : DB) (sid : String) (f : PlanningSession → PlanningSession) : DB :=
  { db with sessions := db.sessions.map (fun s => if s.id = sid then f s else s) }

/-! ## Distance oracle (`PlanningContext.get_travel_time`) -/

/-- Lookup of the distance cache `{(from_dc, to_dc): minutes}`. -/
def lookupDist (cache : List ((String × String) × Nat)) (p : String × String) : Option Nat :=
  (cache.find? (fun e => e.1 = p)).map (fun e => e.2)

/-- Embeds `app/services/planning/context.py`: `PlanningContext.get_travel_time`.
Null or identical endpoints give 0; otherwise the `(from, to)` entry, else the
`(to, from)` entry, else 60 minutes; `ceil(minutes / 60)` hours. -/
def get_travel_time (cache : List ((String × String) × Nat))
    (from_dc to_dc : Option String) : Nat :=
  match from_dc, to_dc with
  | some f, some t =>
      if f = t then 0
      else
        let minutes :=
          match lookupDist cache (f, t) with
          | some m => m
          | none => (lookupDist cache (t, f)).getD 60
        (minutes + 59) / 60
  | _, _ => 0

/-- The minutes value the oracle is specified to pick:
`(a,b)` if present, else `(b,a)`, else 60. -/
def chosenMinutes (cache : List ((String × String) × Nat)) (f t : String) : Nat :=
  match lookupDist cache (f, t) with
  | some m => m
  | none => (lookupDist cache (t, f)).getD 60

/-- C3: travel-time lookup: null or identical endpoints give 0 hours; otherwise
the stored minutes for `(a, b)`, else for `(b, a)`, else 60 minutes, converted
to whole hours by ceiling division by 60. -/
theorem travel_time_lookup_spec (cache : List ((String × String) × Nat))
    (a b : Option String) :
    (a = none → get_travel_time cache a b = 0) ∧
    (b = none → get_travel_time cache a b = 0) ∧
    (∀ x, a = some x → b = some x → get_travel_time cache a b = 0) ∧
    (∀ f t, a = some f → b = some t → f ≠ t →
      get_travel_time cache a b = (chosenMinutes cache f t + 59) / 60) := by
  refine ⟨?_, ?_, ?_, ?_⟩
  · rintro rfl; cases b <;> rfl
  · rintro rfl; cases a <;> rfl
  · rintro x rfl rfl; simp [get_travel_time]
  · rintro f t rfl rfl hne
    simp [get_travel_time, chosenMinutes, hne]

/-- Witness for `travel_time_lookup_spec`: an asymmetric cache entry of 90
minutes for the reverse pair yields `ceil(90/60) = 2` hours. -/
theorem travel_time_lookup_spec_witness :
    get_travel_time [(("B", "A"), 90)] (some "A") (some "B") = (90 + 59) / 60 := by
  have h := (travel_time_lookup_spec [(("B", "A"), 90)] (some "A") (some "B")).2.2.2
    "A" "B" rfl rfl (by decide)
  rw [h]
  rfl

/-! ## Slot sweep (`PlanningEngine._find_start_time_in_slot`) -/

/-- An element of the `occupied` list: dict `{start, end, dc_id}` built by
`PlanningContext.get_occupied_intervals` (`stop` embeds the key `"end"`,
a Lean keyword). -/
structure Occ where
  start : Nat
  stop : Nat
  dc_id : Option String
deriving DecidableEq, Repr

/-- The `potential_start` computation of `_find_start_time_in_slot`,
shared by the loop body and the tail after the loop:
`max(current_time, slot_start)`, raised to `prev.end + travel(prev.dc → target)`
when a previous occupied interval is tracked. -/
def potentialStart (cache : List ((String × String) × Nat)) (target : Option String)
    (slot_start current_time : Nat) (prev : Option Occ) : Nat :=
  match prev with
  | some po =>
      max (max current_time slot_start) (po.stop + get_travel_time cache po.dc_id target)
  | none => max current_time slot_start

/-- The `for occ in occupied` loop of `_find_start_time_in_slot`, with the
tail check after the loop inlined at the two loop exits (list exhausted, and
`break` when `occ.start ≥ slot_end`).  State: remaining list, `current_time`,
`prev_occ`. -/
def sweepLoop (cache : List ((String × String) × Nat)) (target : Option String)
    (slot_start slot_end duration : Nat) :
    List Occ → Nat → Option Occ → Option Nat
  | [], current_time, prev =>
      let p := potentialStart cache target slot_start current_time prev
      if p + duration ≤ slot_end then some p else none
  | occ :: rest, current_time, prev =>
      if occ.stop ≤ slot_start then
        sweepLoop cache target slot_start slot_end duration rest current_time (some occ)
      else if slot_end ≤ occ.start then
        let p := potentialStart cache target slot_start current_time prev
        if p + duration ≤ slot_end then some p else none
      else
        let p := potentialStart cache target slot_start current_time prev
        if p + duration + get_travel_time cache target occ.dc_id ≤ occ.start ∧
            slot_start ≤ p ∧ p + duration ≤ slot_end then
          some p
        else
          sweepLoop cache target slot_start slot_end duration rest
            (max current_time occ.stop) (some occ)

/-- Embeds `app/services/planning/engine.py`: `PlanningEngine._find_start_time_in_slot`.
Empty `occupied` short-circuits to the capacity check, as in the source. -/
def find_start_time_in_slot (cache : List ((String × String) × Nat))
    (target : Option String) (slot_start slot_end duration : Nat)
    (occupied : List Occ) : Option Nat :=
  if occupied = [] then
    if slot_start + duration ≤ slot_end then some slot_start else none
  else
    sweepLoop cache target slot_start slot_end duration occupied slot_start none

/-- The last element of `l`, else the fallback `pr`: identifies the interval
tracked as `prev_occ` once the sweep has passed all of `l`. -/
def lastOr (l : List Occ) (pr : Option Occ) : Option Occ :=
  match l with
  | [] => pr
  | a :: rest => lastOr rest (some a)

theorem le_potentialStart_left (cache : List ((String × String) × Nat))
    (target : Option String) (ws ct : Nat) (prev : Option Occ) :
    ct ≤ potentialStart cache target ws ct prev := by
  cases prev with
  | none => exact le_max_left _ _
  | some po => exact le_trans (le_max_left _ _) (le_max_left _ _)

theorem le_potentialStart_ws (cache : List ((String × String) × Nat))
    (target : Option String) (ws ct : Nat) (prev : Option Occ) :
    ws ≤ potentialStart cache target ws ct prev := by
  cases prev with
  | none => exact le_max_right _ _
  | some po => exact le_trans (le_max_right _ _) (le_max_left _ _)

theorem le_potentialStart_prev (cache : List ((String × String) × Nat))
    (target : Option String) (ws ct : Nat) (prev : Option Occ) (q : Occ)
    (hq : prev = some q) :
    q.stop + get_travel_time cache q.dc_id target ≤
      potentialStart cache target ws ct prev := by
  subst hq
  exact le_max_right _ _

/-- Invariant of the sweep loop: a returned start time `t` lies in the work
window, is past the cursor, splits the remaining occupied list into a passed
prefix (all ending by `t`, whose last element — or the incoming `prev_occ` —
clears `t` with its outgoing travel) and a pending suffix (all starting at or
after `t`, whose head, when it intersects the window, is cleared by `t`
plus the duration plus the travel towards it). -/
theorem sweepLoop_spec (cache : List ((String × String) × Nat))
    (target : Option String) (ws we d : Nat) :
    ∀ (l : List Occ) (ct : Nat) (prev : Option Occ) (t : Nat),
    l.Pairwise (fun a b => a.start ≤ b.start) →
    sweepLoop cache target ws we d l ct prev = some t →
    ws ≤ t ∧ ct ≤ t ∧ t + d ≤ we ∧
    ∃ A B, l = A ++ B ∧
      (∀ a ∈ A, a.stop ≤ t) ∧
      (∀ b ∈ B, t ≤ b.start) ∧
      (∀ q, lastOr A prev = some q →
        q.stop + get_travel_time cache q.dc_id target ≤ t) ∧
      (∀ n, B.head? = some n → n.start < we →
        t + d + get_travel_time cache target n.dc_id ≤ n.start) := by
  intro l
  induction l with
  | nil =>
      intro ct prev t _ hres
      simp only [sweepLoop] at hres
      by_cases h : potentialStart cache target ws ct prev + d ≤ we
      · rw [if_pos h] at hres
        cases hres
        refine ⟨le_potentialStart_ws _ _ _ _ _, le_potentialStart_left _ _ _ _ _, h,
          [], [], rfl, ?_, ?_, ?_, ?_⟩
        · intro a ha; cases ha
        · intro b hb; cases hb
        · intro q hq
          exact le_potentialStart_prev cache target ws ct prev q hq
        · intro n hn; cases hn
      · rw [if_neg h] at hres; cases hres
  | cons occ rest ih =>
      intro ct prev t hsort hres
      have hsort_rest : rest.Pairwise (fun a b => a.start ≤ b.start) :=
        (List.pairwise_cons.mp hsort).2
      have hsort_head : ∀ b ∈ rest, occ.start ≤ b.start :=
        (List.pairwise_cons.mp hsort).1
      simp only [sweepLoop] at hres
      by_cases hskip : occ.stop ≤ ws
      · -- interval lies before the window: `continue`, tracking it as prev
        rw [if_pos hskip] at hres
        obtain ⟨hws, hct, hwe, A, B, hAB, hA, hB, hprev, hnext⟩ :=
          ih ct (some occ) t hsort_rest hres
        refine ⟨hws, hct, hwe, occ :: A, B, by rw [hAB, List.cons_append], ?_, hB, ?_, hnext⟩
        · intro a ha
          rcases List.mem_cons.mp ha with h | h
          · subst h; exact le_trans hskip hws
          · exact hA a h
        · intro q hq
          exact hprev q hq
      · rw [if_neg hskip] at hres
        by_cases hbreak : we ≤ occ.start
        · -- interval starts after the window: `break`, then tail check
          rw [if_pos hbreak] at hres
          by_cases h : potentialStart cache target ws ct prev + d ≤ we
          · rw [if_pos h] at hres
            cases hres
            refine ⟨le_potentialStart_ws _ _ _ _ _, le_potentialStart_left _ _ _ _ _, h,
              [], occ :: rest, rfl, ?_, ?_, ?_, ?_⟩
            · intro a ha; cases ha
            · intro b hb
              rcases List.mem_cons.mp hb with hb | hb
              · subst hb
                exact le_trans (le_trans (Nat.le_add_right _ _) h) hbreak
              · exact le_trans (le_trans (le_trans (Nat.le_add_right _ _) h) hbreak)
                  (hsort_head b hb)
            · intro q hq
              exact le_potentialStart_prev cache target ws ct prev q hq
            · intro n hn hnwe
              cases hn
              exact absurd hnwe (not_lt.mpr hbreak)
          · rw [if_neg h] at hres; cases hres
        · rw [if_neg hbreak] at hres
          by_cases hemit :
              potentialStart cache target ws ct prev + d +
                  get_travel_time cache target occ.dc_id ≤ occ.start ∧
                ws ≤ potentialStart cache target ws ct prev ∧
                potentialStart cache target ws ct prev + d ≤ we
          · -- emission: the chunk fits before `occ`
            rw [if_pos hemit] at hres
            cases hres
            refine ⟨hemit.2.1, le_potentialStart_left _ _ _ _ _, hemit.2.2,
              [], occ :: rest, rfl, ?_, ?_, ?_, ?_⟩
            · intro a ha; cases ha
            · intro b hb
              rcases List.mem_cons.mp hb with hb | hb
              · subst hb
                exact le_trans (le_trans (Nat.le_add_right _ _)
                  (Nat.le_add_right _ _)) hemit.1
              · exact le_trans (le_trans (le_trans (Nat.le_add_right _ _)
                  (Nat.le_add_right _ _)) hemit.1) (hsort_head b hb)
            · intro q hq
              exact le_potentialStart_prev cache target ws ct prev q hq
            · intro n hn _
              cases hn
              exact hemit.1
          · -- no fit before `occ`: advance the cursor past it
            rw [if_neg hemit] at hres
            obtain ⟨hws, hct, hwe, A, B, hAB, hA, hB, hprev, hnext⟩ :=
              ih (max ct occ.stop) (some occ) t hsort_rest hres
            refine ⟨hws, le_trans (le_max_left _ _) hct, hwe,
              occ :: A, B, by rw [hAB, List.cons_append], ?_, hB, ?_, hnext⟩
            · intro a ha
              rcases List.mem_cons.mp ha with h | h
              · subst h; exact le_trans (le_max_right _ _) hct
              · exact hA a h
            · intro q hq
              exact hprev q hq

/-- C2: slot-sweep postcondition.  For every work window `[ws, we)`, duration
`d ≥ 1` and start-sorted occupied list, a returned start hour `t` satisfies
`ws ≤ t` and `t + d ≤ we`; the occupied list splits around `t` into a passed
prefix and a pending suffix, the last passed interval (when one exists) clears
`t` together with the travel from its DC to the target DC, and the next
occupied interval (when one exists inside the window) is cleared by `t + d`
plus the travel from the target DC to its DC. -/
theorem slot_sweep_postcondition (cache : List ((String × String) × Nat))
    (target : Option String) (ws we d : Nat) (occupied : List Occ) (t : Nat)
    (hd : 1 ≤ d)
    (hsort : occupied.Pairwise (fun a b => a.start ≤ b.start))
    (hres : find_start_time_in_slot cache target ws we d occupied = some t) :
    ws ≤ t ∧ t + d ≤ we ∧
    ∃ A B, occupied = A ++ B ∧
      (∀ a ∈ A, a.stop ≤ t) ∧
      (∀ b ∈ B, t ≤ b.start) ∧
      (∀ q, lastOr A none = some q →
        q.stop + get_travel_time cache q.dc_id target ≤ t) ∧
      (∀ n, B.head? = some n → n.start < we →
        t + d + get_travel_time cache target n.dc_id ≤ n.start) := by
  unfold find_start_time_in_slot at hres
  by_cases hocc : occupied = []
  · rw [if_pos hocc] at hres
    by_cases hcap : ws + d ≤ we
    · rw [if_pos hcap] at hres
      cases hres
      subst hocc
      refine ⟨le_refl _, hcap, [], [], rfl, ?_, ?_, ?_, ?_⟩
      · intro a ha; cases ha
      · intro b hb; cases hb
      · intro q hq; cases hq
      · intro n hn; cases hn
    · rw [if_neg hcap] at hres; cases hres
  · rw [if_neg hocc] at hres
    obtain ⟨hws, _, hwe, A, B, hAB, hA, hB, hprev, hnext⟩ :=
      sweepLoop_spec cache target ws we d occupied ws none t hsort hres
    exact ⟨hws, hwe, A, B, hAB, hA, hB, hprev, hnext⟩

/-- Witness for `slot_sweep_postcondition`: window `[9, 18)`, one occupied
interval `10–12` at DC `A`, a 3-hour chunk at DC `B` with `travel(A→B) = 60`
minutes; the sweep returns hour 13 and the window bounds hold there (the
passed interval `10–12` indeed clears `13` with its one hour of travel). -/
theorem slot_sweep_postcondition_witness :
    find_start_time_in_slot [(("A", "B"), 60)] (some "B") 9 18 3
      [Occ.mk 10 12 (some "A")] = some 13 ∧
    9 ≤ 13 ∧ 13 + 3 ≤ 18 ∧
    12 + get_travel_time [(("A", "B"), 60)] (some "A") (some "B") ≤ 13 :=
  ⟨rfl,
    (slot_sweep_postcondition [(("A", "B"), 60)] (some "B") 9 18 3
      [Occ.mk 10 12 (some "A")] 13 (by decide) (by simp) (by decide)).1,
    (slot_sweep_postcondition [(("A", "B"), 60)] (some "B") 9 18 3
      [Occ.mk 10 12 (some "A")] 13 (by decide) (by simp) (by decide)).2.1,
    by decide⟩

/-! ## Planning context (`app/services/planning/context.py`) -/

/-- Embeds `PlanningContext._dc_regions.get(dc_id)`: region of a data center. -/
def lookupRegion (db : DB) (dc : String) : Option String :=
  (db.dc_regions.find? (fun e => e.1 = dc)).map (fun e => e.2)

/-- Embeds `PlanningContext.get_candidate_engineers`: filter by the region of the
target DC when it is known, then stably move the preferred engineer first
(the binary-key `sort` of the source is a stable partition). -/
def get_candidate_engineers (db : DB) (dc_id : Option String)
    (preferred : Option String) : List Engineer :=
  let base :=
    match dc_id with
    | some dc =>
        match lookupRegion db dc with
        | some region => db.engineers.filter (fun e => e.region_id = region)
        | none => db.engineers
    | none => db.engineers
  match preferred with
  | some pid =>
      base.filter (fun e => e.id = pid) ++ base.filter (fun e => ¬e.id = pid)
  | none => base

/-- Embeds `PlanningContext.get_engineer_slots`: the engineer's work windows on a
date, ordered by `start_hour`. -/
def get_engineer_slots (db : DB) (eng : String) (day : Nat) : List TimeSlot :=
  List.insertionSort (fun a b => a.start_hour ≤ b.start_hour)
    (db.time_slots.filter (fun s => s.engineer_id = eng ∧ s.date = day))

/-- A chunk counts as occupying its engineer's day in these statuses. -/
def isActiveStatus (s : ChunkStatus) : Prop :=
  s = ChunkStatus.planned ∨ s = ChunkStatus.assigned ∨ s = ChunkStatus.in_progress

instance (s : ChunkStatus) : Decidable (isActiveStatus s) := by
  unfold isActiveStatus; infer_instance

/-- Embeds `PlanningContext.get_occupied_intervals`: persisted active assignments of
the engineer on the day (DC = chunk's DC, else its work's), plus the current
run's virtual assignments, sorted by start. -/
def get_occupied_intervals (db : DB) (virtuals : List Assignment)
    (eng : String) (day : Nat) : List Occ :=
  let fromDb := (db.chunks.filter (fun c =>
      c.assigned_engineer_id = some eng ∧ c.assigned_date = some day ∧
      isActiveStatus c.status)).filterMap (fun c =>
    match c.assigned_start_time with
    | some st =>
        let dc :=
          match c.data_center_id with
          | some d => some d
          | none => (db.getWork c.work_id).bind (fun w => w.data_center_id)
        some (Occ.mk st (st + c.duration_hours) dc)
    | none => none)
  let fromVirtual := (virtuals.filter (fun a => a.engineer_id = eng ∧ a.date = day)).map
    (fun a => Occ.mk a.start_time (a.start_time + a.duration_hours) a.dc_id)
  List.insertionSort (fun a b => a.start ≤ b.start) (fromDb ++ fromVirtual)

/-- SQL `assigned_date >= lo AND assigned_date <= hi` (null dates excluded). -/
def dateInRange (d : Option Nat) (lo hi : Nat) : Prop :=
  match d with
  | some x => lo ≤ x ∧ x ≤ hi
  | none => False

instance (d : Option Nat) (lo hi : Nat) : Decidable (dateInRange d lo hi) := by
  cases d <;> (unfold dateInRange; infer_instance)

/-- Embeds `PlanningContext.calculate_load`: `(used, total_available)` hours of an
engineer over a date range — persisted active chunks plus virtual
assignments against the total `TimeSlot` capacity. -/
def calculate_load (db : DB) (virtuals : List Assignment) (eng : String)
    (start_date end_date : Nat) : Nat × Nat :=
  let total_available := ((db.time_slots.filter (fun s =>
      s.engineer_id = eng ∧ start_date ≤ s.date ∧ s.date ≤ end_date)).map
      (fun s => s.end_hour - s.start_hour)).sum
  let used_db := ((db.chunks.filter (fun c =>
      c.assigned_engineer_id = some eng ∧
      dateInRange c.assigned_date start_date end_date ∧
      isActiveStatus c.status)).map WorkChunk.duration_hours).sum
  let used_virtual := ((virtuals.filter (fun a =>
      a.engineer_id = eng ∧ start_date ≤ a.date ∧ a.date ≤ end_date)).map
      (fun a => a.duration_hours)).sum
  (used_db + used_virtual, total_available)

/-! ## Slot search engine (`app/services/planning/engine.py`) -/

/-- Embeds `app/services/planning/types.py`: `SlotSuggestion` (the unused display
field `priority` is omitted). -/
structure SlotSuggestion where
  engineer_id : String
  engineer_name : String
  date : Nat
  start_time : Nat
  end_time : Nat
  duration_hours : Nat
  dc_id : Option String
deriving DecidableEq, Repr

/-- Embeds `PlanningEngine._create_suggestion`. -/
def _create_suggestion (eng : Engineer) (day start duration : Nat)
    (dc_id : Option String) : SlotSuggestion :=
  ⟨eng.id, eng.name, day, start, start + duration, duration, dc_id⟩

/-- Embeds `PlanningEngine._is_slot_free`: feasibility of a fixed start, reusing the
sweep on the narrow window `[start, start + duration)`. -/
def _is_slot_free (cache : List ((String × String) × Nat)) (start duration : Nat)
    (occupied : List Occ) (target : Option String) : Bool :=
  (find_start_time_in_slot cache target start (start + duration) duration occupied).isSome

/-- The dates visited by `while current_date <= search_window_end`. -/
def daysInWindow (s e : Nat) : List Nat :=
  (List.range (e + 1 - s)).map (fun i => s + i)

/-- The general-work part of the per-day loop: the first work window whose
sweep yields a start (the source `break`s after one suggestion per day). -/
def firstSlotHit (cache : List ((String × String) × Nat)) (eng : Engineer)
    (day duration : Nat) (target : Option String) (occupied : List Occ) :
    List TimeSlot → List SlotSuggestion
  | [] => []
  | w :: rest =>
      match find_start_time_in_slot cache target w.start_hour w.end_hour duration occupied with
      | some found => [_create_suggestion eng day found duration target]
      | none => firstSlotHit cache eng day duration target occupied rest

/-- Embeds `PlanningEngine.find_available_slots`, one day: skip days without work
windows; a support work with a fixed `target_time` checks that start in every
window (`continue`), a general work takes the first sweep hit (`break`). -/
def slotsForDay (db : DB) (virtuals : List Assignment) (eng : Engineer)
    (chunk : WorkChunk) (work : Work) (day : Nat) : List SlotSuggestion :=
  let duration := chunk.duration_hours
  let target_dc :=
    match chunk.data_center_id with
    | some d => some d
    | none => work.data_center_id
  let work_slots := get_engineer_slots db eng.id day
  if work_slots = [] then []
  else
    let occupied := get_occupied_intervals db virtuals eng.id day
    match work.work_type, work.target_time with
    | WorkType.support, some st =>
        work_slots.filterMap (fun w =>
          if w.start_hour ≤ st ∧ st + duration ≤ w.end_hour ∧
              _is_slot_free db.distances st duration occupied target_dc then
            some (_create_suggestion eng day st duration target_dc)
          else none)
    | _, _ =>
        firstSlotHit db.distances eng day duration target_dc occupied work_slots

/-- Embeds `PlanningEngine.find_available_slots`: concatenation of the per-day
results over the search window. -/
def find_available_slots (db : DB) (virtuals : List Assignment) (eng : Engineer)
    (chunk : WorkChunk) (work : Work) (ws we : Nat) : List SlotSuggestion :=
  (daysInWindow ws we).flatMap (slotsForDay db virtuals eng chunk work)

/-! ## Strategies (`app/services/planning/strategies/`) -/

/-- The `priority_map` shared by the strategies (`critical=0 … low=3`). -/
def priority_rank (p : Priority) : Nat :=
  match p with
  | Priority.critical => 0
  | Priority.high => 1
  | Priority.medium => 2
  | Priority.low => 3

/-- Embeds `DenseStrategy.sort_chunks` key:
`(0 if support else 1, priority_rank, -duration, chunk.order)`. -/
def denseKey (item : WorkChunk × Work) : Nat × Nat × Int × Nat :=
  (if item.2.work_type = WorkType.support then 0 else 1,
   priority_rank item.2.priority,
   -(item.1.duration_hours : Int),
   item.1.order)

/-- Lexicographic comparison of the 4-tuple keys, as Python compares tuples. -/
def lex4 (a b : Nat × Nat × Int × Nat) : Prop :=
  a.1 < b.1 ∨ (a.1 = b.1 ∧ (a.2.1 < b.2.1 ∨ (a.2.1 = b.2.1 ∧
    (a.2.2.1 < b.2.2.1 ∨ (a.2.2.1 = b.2.2.1 ∧ a.2.2.2 ≤ b.2.2.2)))))

instance (a b : Nat × Nat × Int × Nat) : Decidable (lex4 a b) := by
  unfold lex4; infer_instance

/-- The dense queue preorder on `(chunk, work)` pairs. -/
def DenseRel (a b : WorkChunk × Work) : Prop :=
  lex4 (denseKey a) (denseKey b)

instance (a b : WorkChunk × Work) : Decidable (DenseRel a b) := by
  unfold DenseRel; infer_instance

theorem lex4_total (a b : Nat × Nat × Int × Nat) : lex4 a b ∨ lex4 b a := by
  unfold lex4; omega

theorem lex4_trans (a b c : Nat × Nat × Int × Nat)
    (h1 : lex4 a b) (h2 : lex4 b c) : lex4 a c := by
  unfold lex4 at h1 h2 ⊢; omega

instance : IsTotal (WorkChunk × Work) DenseRel :=
  ⟨fun a b => lex4_total (denseKey a) (denseKey b)⟩

instance : IsTrans (WorkChunk × Work) DenseRel :=
  ⟨fun a b c => lex4_trans (denseKey a) (denseKey b) (denseKey c)⟩

/-- Embeds `DenseStrategy.sort_chunks`: the stable sort of the queue by `denseKey`
(Python's `sorted` is stable; so is insertion sort on a total preorder). -/
def dense_sort_chunks (l : List (WorkChunk × Work)) : List (WorkChunk × Work) :=
  List.insertionSort DenseRel l

/-- Embeds `used / available if available > 0 else 0` of `DenseStrategy`. -/
def denseRatio (used available : Nat) : ℚ :=
  if 0 < available then (used : ℚ) / available else 0

/-- One iteration of the `DenseStrategy.select_best_slot` loop; the
accumulator is `(best, max_load_ratio)`, started at `(None, -1.0)`. -/
def dense_select_step (load : String → Nat → Nat × Nat)
    (acc : Option SlotSuggestion × ℚ) (cand : SlotSuggestion) :
    Option SlotSuggestion × ℚ :=
  let ua := load cand.engineer_id cand.date
  if ua.1 + cand.duration_hours ≤ ua.2 then
    let ratio := denseRatio ua.1 ua.2
    if acc.2 < ratio then (some cand, ratio)
    else if ratio = acc.2 then
      match acc.1 with
      | some b => if cand.date < b.date then (some cand, acc.2) else acc
      | none => acc
    else acc
  else acc

/-- Embeds `DenseStrategy.select_best_slot`, abstracted over the per-candidate
`context.calculate_load(engineer, date, date)` query: keep the fitting
candidate with the highest current load ratio (ties to the earlier date);
when none was kept, fall back to the first candidate. -/
def dense_select_best_slot (load : String → Nat → Nat × Nat)
    (candidates : List SlotSuggestion) : Option SlotSuggestion :=
  match candidates with
  | [] => none
  | c0 :: _ =>
      match (candidates.foldl (dense_select_step load) (none, -1)).1 with
      | some b => some b
      | none => some c0

/-- Embeds `DenseStrategy.select_best_slot` wired to the planning context's
`calculate_load` over the suggestion's single day. -/
def DenseStrategy_select (db : DB) (virtuals : List Assignment)
    (candidates : List SlotSuggestion) : Option SlotSuggestion :=
  dense_select_best_slot (fun e d => calculate_load db virtuals e d d) candidates

/-- Embeds `(used + duration) / available if available > 0 else 1.0` of
`BalancedStrategy`. -/
def balancedRatio (used available duration : Nat) : ℚ :=
  if 0 < available then ((used : ℚ) + duration) / available else 1

/-- One iteration of the `BalancedStrategy.select_best_slot` loop; `none`
stands for the initial `(best=None, min_load_ratio=inf)` state, which any
candidate beats. -/
def balanced_select_step (db : DB) (virtuals : List Assignment)
    (acc : Option (SlotSuggestion × ℚ)) (cand : SlotSuggestion) :
    Option (SlotSuggestion × ℚ) :=
  let ua := calculate_load db virtuals cand.engineer_id cand.date cand.date
  let ratio := balancedRatio ua.1 ua.2 cand.duration_hours
  match acc with
  | none => some (cand, ratio)
  | some bm =>
      if ratio < bm.2 then some (cand, ratio)
      else if ratio = bm.2 then
        (if cand.date < bm.1.date then some (cand, bm.2) else some bm)
      else some bm

/-- Embeds `BalancedStrategy.select_best_slot`: minimize the post-assignment load
ratio, ties to the earlier date. -/
def balanced_select_best_slot (db : DB) (virtuals : List Assignment)
    (candidates : List SlotSuggestion) : Option SlotSuggestion :=
  (candidates.foldl (balanced_select_step db virtuals) none).map (fun bm => bm.1)

/-! ## Planning service (`app/services/planning/service.py`) -/

/-- Embeds `app/services/planning/types.py`: `SchedulingResult` (count/error fields
of the bulk paths omitted). -/
structure SchedulingResult where
  success : Bool
  message : Option String
  suggestion : Option SlotSuggestion
deriving DecidableEq, Repr

/-- Embeds `PlanningService._get_prev_chunks`: the chunks the given chunk depends on
(targets of its outgoing `dependency` links). -/
def _get_prev_chunks (db : DB) (cid : String) : List WorkChunk :=
  db.chunks.filter (fun c =>
    (db.links.filter (fun l => l.chunk_id = cid ∧ l.link_type = ChunkLinkType.dependency)).any
      (fun l => l.linked_chunk_id = c.id))

/-- Embeds `PlanningService._get_date_window`: support pins to `target_date`;
general runs from today to `due_date` (default +30 days), raised past the
latest assigned date of the chunk's dependencies. -/
def _get_date_window (db : DB) (chunk : WorkChunk) (work : Work) : Nat × Nat :=
  let today := db.today
  if work.work_type = WorkType.support then
    let d := work.target_date.getD today
    (d, d)
  else
    let start := today
    let stop := work.due_date.getD (today + 30)
    let prev_dates := (_get_prev_chunks db chunk.id).filterMap (fun c => c.assigned_date)
    match prev_dates.max? with
    | some m => (max start (m + 1), stop)
    | none => (start, stop)

/-- Embeds `PlanningService._find_slot_for_single_chunk`: constraints, candidate
engineers, all per-engineer suggestions, then the strategy's selector. -/
def _find_slot_for_single_chunk (db : DB) (virtuals : List Assignment)
    (chunk : WorkChunk) (work : Work) (preferred : Option String)
    (select : List SlotSuggestion → Option SlotSuggestion) : Option SlotSuggestion :=
  let ses := _get_date_window db chunk work
  let dc_id :=
    match chunk.data_center_id with
    | some d => some d
    | none => work.data_center_id
  let engineers := get_candidate_engineers db dc_id preferred
  if engineers = [] then none
  else
    select (engineers.flatMap (fun e =>
      find_available_slots db virtuals e chunk work ses.1 ses.2))

/-- Embeds `PlanningService.suggest_slot`: read-only single-chunk suggestion with the
Balanced selector (a fresh service has an empty virtual overlay). -/
def suggest_slot (db : DB) (chunk_id : String) : SchedulingResult × DB :=
  match db.getChunk chunk_id with
  | none => (⟨false, some "Chunk not found", none⟩, db)
  | some chunk =>
      match db.getWork chunk.work_id with
      | none => (⟨false, some "Work not found", none⟩, db)
      | some work =>
          match _find_slot_for_single_chunk db [] chunk work none
              (balanced_select_best_slot db []) with
          | some slot => (⟨true, none, some slot⟩, db)
          | none => (⟨false, some "No suitable slot found", none⟩, db)

/-- The status automaton of `PlanningService._update_work_status`, as a pure
function of the current work status and the chunk statuses. -/
def planning_new_status (current : WorkStatus) (statuses : List ChunkStatus) : WorkStatus :=
  if ChunkStatus.in_progress ∈ statuses then WorkStatus.in_progress
  else if ∀ s ∈ statuses, s = ChunkStatus.completed then WorkStatus.completed
  else if ChunkStatus.planned ∈ statuses ∨ ChunkStatus.assigned ∈ statuses then
    (if ChunkStatus.created ∈ statuses then WorkStatus.scheduling else WorkStatus.assigned)
  else current

/-- Embeds `PlanningService._update_work_status`: recompute the work status from its
chunks (missing work or chunkless work: no change; unchanged status: no
write). -/
def _update_work_status (db : DB) (work_id : String) : DB :=
  match db.getWork work_id with
  | none => db
  | some work =>
      let chunks := db.chunks.filter (fun c => c.work_id = work_id)
      if chunks = [] then db
      else
        let new_status := planning_new_status work.status (chunks.map (fun c => c.status))
        if new_status ≠ work.status then
          db.updateWork work_id (fun w => { w with status := new_status })
        else db

/-- Clearing a chunk's assignment: null triple, status `created`. -/
def clearChunk (c : WorkChunk) : WorkChunk :=
  { c with assigned_engineer_id := none, assigned_date := none,
           assigned_start_time := none, status := ChunkStatus.created }

/-- Embeds `PlanningService.unassign_chunk`: clear a `planned`/`assigned` chunk and
recompute the work status; any other status is a successful no-op. -/
def unassign_chunk (db : DB) (chunk_id : String) : SchedulingResult × DB :=
  match db.getChunk chunk_id with
  | none => (⟨false, some "Chunk not found", none⟩, db)
  | some chunk =>
      if chunk.status = ChunkStatus.planned ∨ chunk.status = ChunkStatus.assigned then
        let db1 := db.updateChunk chunk_id clearChunk
        (⟨true, some "Unassigned", none⟩, _update_work_status db1 chunk.work_id)
      else
        (⟨true, some "Already unassigned", none⟩, db)

/-- Writing one session assignment into its chunk (`apply_session` loop body):
only a chunk still in `created` status is written. -/
def applyAssignment (db : DB) (ass : Assignment) : DB × Bool :=
  match db.getChunk ass.chunk_id with
  | some chunk =>
      if chunk.status = ChunkStatus.created then
        (db.updateChunk ass.chunk_id (fun c =>
          { c with assigned_engineer_id := some ass.engineer_id,
                   assigned_date := some ass.date,
                   assigned_start_time := some ass.start_time,
                   status := ChunkStatus.planned }), true)
      else (db, false)
  | none => (db, false)

/-- Insert without duplicates (the `work_ids` set of the session loops). -/
def insertWid (wids : List String) (w : String) : List String :=
  if w ∈ wids then wids else wids ++ [w]

/-- One iteration of the `apply_session` loop: thread the store, the applied
count and the collected `work_ids`. -/
def apply_step (acc : DB × Nat × List String) (ass : Assignment) : DB × Nat × List String :=
  let res := applyAssignment acc.1 ass
  if res.2 then (res.1, acc.2.1 + 1, insertWid acc.2.2 ass.work_id)
  else (res.1, acc.2.1, acc.2.2)

/-- Embeds `PlanningService.apply_session`: requires a draft session; writes each
assignment whose chunk is still `created`, marks the session applied, then
recomputes the statuses of the affected works.  Returns
`(success, applied_count)`. -/
def apply_session (db : DB) (session_id : String) : (Bool × Nat) × DB :=
  match db.getSession session_id with
  | none => ((false, 0), db)
  | some session =>
      if session.status = SessionStatus.draft then
        let fin := session.assignments.foldl apply_step (db, 0, [])
        let db2 := fin.1.updateSession session_id
          (fun s => { s with status := SessionStatus.applied })
        ((true, fin.2.1), fin.2.2.foldl _update_work_status db2)
      else ((false, 0), db)

/-- Rolling back one session assignment (`cancel_session` loop body): only a
chunk still in `planned` status is reverted — the persisted triple is not
compared against the assignment. -/
def cancelAssignment (db : DB) (ass : Assignment) : DB × Bool :=
  match db.getChunk ass.chunk_id with
  | some chunk =>
      if chunk.status = ChunkStatus.planned then
        (db.updateChunk ass.chunk_id clearChunk, true)
      else (db, false)
  | none => (db, false)

/-- One iteration of the `cancel_session` rollback loop. -/
def cancel_step (acc : DB × List String) (ass : Assignment) : DB × List String :=
  let res := cancelAssignment acc.1 ass
  if res.2 then (res.1, insertWid acc.2 ass.work_id)
  else (res.1, acc.2)

/-- Embeds `PlanningService.cancel_session`: a missing session fails; an applied
session first rolls back its still-`planned` chunks and recomputes affected
works; every found session is then marked cancelled with success. -/

def cancel_session (db : DB) (session_id : String) : Bool × DB :=
  match db.getSession session_id with
  | none => (false, db)
  | some session =>
      let db1 :=
        if session.status = SessionStatus.applied then
          let fin := session.assignments.foldl cancel_step (db, [])
          fin.2.foldl _update_work_status fin.1
        else db
      (true, db1.updateSession session_id
        (fun s => { s with status := SessionStatus.cancelled }))

/-! ## SchedulingServiceV2 (`app/services/scheduling_service.py`) -/

/-- Embeds `SchedulingServiceV2._get_chunk_dependencies`: targets of outgoing
`dependency` links. -/
def v2_depends_on_ids (db : DB) (cid : String) : List String :=
  (db.links.filter (fun l => l.chunk_id = cid ∧ l.link_type = ChunkLinkType.dependency)).map
    (fun l => l.linked_chunk_id)

/-- Embeds `SchedulingServiceV2._get_chunk_dependencies`: sync peers — targets of
outgoing `sync` links plus sources of incoming ones, deduplicated. -/
def v2_sync_ids (db : DB) (cid : String) : List String :=
  let outgoing := (db.links.filter (fun l =>
      l.chunk_id = cid ∧ l.link_type = ChunkLinkType.sync)).map (fun l => l.linked_chunk_id)
  let incoming := (db.links.filter (fun l =>
      l.linked_chunk_id = cid ∧ l.link_type = ChunkLinkType.sync)).map (fun l => l.chunk_id)
  incoming.foldl insertWid outgoing

/-- Embeds `SchedulingServiceV2._get_chunk_dependencies`: the latest assigned date
among the dependency targets. -/
def v2_earliest_date (db : DB) (cid : String) : Option Nat :=
  let ids := v2_depends_on_ids db cid
  if ids = [] then none
  else ((db.chunks.filter (fun c => c.id ∈ ids)).filterMap
    (fun c => c.assigned_date)).max?

/-- Embeds `SchedulingServiceV2._get_chunk_dependencies`: the first assigned date
found among the sync peers. -/
def v2_sync_date (db : DB) (cid : String) : Option Nat :=
  let ids := v2_sync_ids db cid
  if ids = [] then none
  else ((db.chunks.filter (fun c => c.id ∈ ids)).filterMap
    (fun c => c.assigned_date)).head?

/-- Embeds `SchedulingServiceV2._get_date_constraints`: base window (support pinned
to `target_date`, general today…deadline), raised past dependencies, then
overridden to the sync peers' date when one exists.  Returns
`(start_date, end_date, sync_date)`. -/
def v2_get_date_constraints (db : DB) (chunk : WorkChunk) (work : Work) :
    Nat × Nat × Option Nat :=
  let today := db.today
  let base :=
    if work.work_type = WorkType.support then
      let d := work.target_date.getD today
      (d, d)
    else
      (today, work.due_date.getD (today + 30))
  let start1 :=
    match v2_earliest_date db chunk.id with
    | some ed => if base.1 ≤ ed then ed + 1 else base.1
    | none => base.1
  match v2_sync_date db chunk.id with
  | some sd => (sd, sd, some sd)
  | none => (start1, base.2, none)

/-- The status automaton of `SchedulingServiceV2._update_work_status`: all
chunks completed → `completed`; any chunk planned/assigned/in-progress/
completed → `in_progress`; otherwise `created` for support works and
`ready` (or `draft` kept) for general ones. -/
def schedv2_new_status (work : Work) (statuses : List ChunkStatus) : WorkStatus :=
  if ∀ s ∈ statuses, s = ChunkStatus.completed then WorkStatus.completed
  else if statuses.any (fun s =>
      s = ChunkStatus.planned ∨ s = ChunkStatus.assigned ∨
      s = ChunkStatus.in_progress ∨ s = ChunkStatus.completed) then
    WorkStatus.in_progress
  else if work.work_type = WorkType.support then WorkStatus.created
  else if work.status ≠ WorkStatus.draft then WorkStatus.ready
  else WorkStatus.draft

/-- Embeds `SchedulingServiceV2._update_work_status` (also the updater
`BulkSchedulingService` delegates to): unconditional write of the recomputed
status when the work has chunks. -/
def schedv2_update_work_status (db : DB) (work_id : String) : DB :=
  match db.getWork work_id with
  | none => db
  | some work =>
      let chunks := db.chunks.filter (fun c => c.work_id = work_id)
      if chunks = [] then db
      else
        db.updateWork work_id (fun w =>
          { w with status := schedv2_new_status work (chunks.map (fun c => c.status)) })

/-! ## The travel-aware no-overlap invariant (spec §8, P1) -/

/-- Consecutive check `a.start + a.duration + travel(a.dc → b.dc) ≤ b.start`
along a start-sorted interval list. -/
def travelChainOk (cache : List ((String × String) × Nat)) : List Occ → Bool
  | [] => true
  | [_] => true
  | a :: b :: rest =>
      decide (a.stop + get_travel_time cache a.dc_id b.dc_id ≤ b.start) &&
        travelChainOk cache (b :: rest)

/-- P1 for one engineer-day: the persisted assignments (no virtual overlay),
sorted by start hour, satisfy the travel-aware chain condition. -/
def no_overlap_invariant (db : DB) (eng : String) (day : Nat) : Bool :=
  travelChainOk db.distances (get_occupied_intervals db [] eng day)

/-! ## Store lemmas -/

theorem getChunk_id (db : DB) (x : String) (c : WorkChunk)
    (h : db.getChunk x = some c) : c.id = x := by
  unfold DB.getChunk at h
  have := List.find?_some h
  simpa using this

theorem getSession_id (db : DB) (x : String) (s : PlanningSession)
    (h : db.getSession x = some s) : s.id = x := by
  unfold DB.getSession at h
  have := List.find?_some h
  simpa using this

theorem find?_map_key {α : Type} (key : α → String) (x : String) (g : α → α)
    (hg : ∀ a, key (g a) = key a) (l : List α) :
    (l.map g).find? (fun a => key a = x) =
      (l.find? (fun a => key a = x)).map g := by
  induction l with
  | nil => rfl
  | cons a l ih =>
      by_cases h : key a = x
      · simp [List.find?_cons, hg, h]
      · simp [List.find?_cons, hg, h, ih]

theorem getChunk_updateChunk (db : DB) (cid x : String) (f : WorkChunk → WorkChunk)
    (hf : ∀ c, (f c).id = c.id) :
    (db.updateChunk cid f).getChunk x =
      (db.getChunk x).map (fun c => if c.id = cid then f c else c) := by
  unfold DB.updateChunk DB.getChunk
  exact find?_map_key WorkChunk.id x _
    (fun a => by split <;> simp [hf]) db.chunks

theorem getChunk_updateChunk_other (db : DB) (cid x : String) (f : WorkChunk → WorkChunk)
    (hf : ∀ c, (f c).id = c.id) (hx : cid ≠ x) :
    (db.updateChunk cid f).getChunk x = db.getChunk x := by
  rw [getChunk_updateChunk db cid x f hf]
  cases h : db.getChunk x with
  | none => rfl
  | some c =>
      have : c.id = x := getChunk_id db x c h
      simp [this, Ne.symm hx]

theorem getSession_updateSession (db : DB) (sid x : String)
    (f : PlanningSession → PlanningSession) (hf : ∀ s, (f s).id = s.id) :
    (db.updateSession sid f).getSession x =
      (db.getSession x).map (fun s => if s.id = sid then f s else s) := by
  unfold DB.updateSession DB.getSession
  exact find?_map_key PlanningSession.id x _
    (fun a => by split <;> simp [hf]) db.sessions

theorem update_work_status_chunks (db : DB) (wid : String) :
    (_update_work_status db wid).chunks = db.chunks := by
  simp only [_update_work_status]
  split
  · rfl
  · split
    · rfl
    · split <;> rfl

theorem update_work_status_sessions (db : DB) (wid : String) :
    (_update_work_status db wid).sessions = db.sessions := by
  simp only [_update_work_status]
  split
  · rfl
  · split
    · rfl
    · split <;> rfl

theorem update_work_status_getChunk (db : DB) (wid x : String) :
    (_update_work_status db wid).getChunk x = db.getChunk x := by
  unfold DB.getChunk
  rw [update_work_status_chunks]

theorem foldl_update_work_status_chunks (wids : List String) :
    ∀ db : DB, (wids.foldl _update_work_status db).chunks = db.chunks := by
  induction wids with
  | nil => intro db; rfl
  | cons w l ih => intro db; rw [List.foldl_cons, ih, update_work_status_chunks]

theorem foldl_update_work_status_sessions (wids : List String) :
    ∀ db : DB, (wids.foldl _update_work_status db).sessions = db.sessions := by
  induction wids with
  | nil => intro db; rfl
  | cons w l ih => intro db; rw [List.foldl_cons, ih, update_work_status_sessions]

theorem foldl_update_work_status_getChunk (wids : List String) (db : DB) (x : String) :
    (wids.foldl _update_work_status db).getChunk x = db.getChunk x := by
  unfold DB.getChunk
  rw [foldl_update_work_status_chunks]

theorem clearChunk_id (c : WorkChunk) : (clearChunk c).id = c.id := rfl

theorem cancelAssignment_sessions (db : DB) (a : Assignment) :
    (cancelAssignment db a).1.sessions = db.sessions := by
  unfold cancelAssignment
  split
  · split <;> rfl
  · rfl

theorem cancelAssignment_getChunk_other (db : DB) (a : Assignment) (x : String)
    (hx : a.chunk_id ≠ x) :
    (cancelAssignment db a).1.getChunk x = db.getChunk x := by
  unfold cancelAssignment
  split
  · split
    · exact getChunk_updateChunk_other db a.chunk_id x clearChunk (fun c => rfl) hx
    · rfl
  · rfl

theorem cancelAssignment_getChunk_ne (db : DB) (a : Assignment) (x : String)
    (c : WorkChunk) (h : db.getChunk x = some c) (hst : c.status ≠ ChunkStatus.planned) :
    (cancelAssignment db a).1.getChunk x = some c := by
  by_cases hx : a.chunk_id = x
  · subst hx
    unfold cancelAssignment
    simp only [h, if_neg hst]
  · rw [cancelAssignment_getChunk_other db a x hx, h]

theorem cancel_step_fst (acc : DB × List String) (a : Assignment) :
    (cancel_step acc a).1 = (cancelAssignment acc.1 a).1 := by
  simp only [cancel_step]
  split <;> rfl

theorem cancel_fold_sessions (l : List Assignment) :
    ∀ acc : DB × List String,
      ((l.foldl cancel_step acc).1).sessions = acc.1.sessions := by
  induction l with
  | nil => intro acc; rfl
  | cons a l ih =>
      intro acc
      rw [List.foldl_cons, ih, cancel_step_fst, cancelAssignment_sessions]

theorem cancel_fold_getChunk_ne (l : List Assignment) :
    ∀ (acc : DB × List String) (x : String) (c : WorkChunk),
      acc.1.getChunk x = some c → c.status ≠ ChunkStatus.planned →
      ((l.foldl cancel_step acc).1).getChunk x = some c := by
  induction l with
  | nil => intro acc x c h _; exact h
  | cons a l ih =>
      intro acc x c h hst
      rw [List.foldl_cons]
      refine ih _ x c ?_ hst
      rw [cancel_step_fst]
      exact cancelAssignment_getChunk_ne acc.1 a x c h hst

theorem cancel_fold_getChunk_unnamed (l : List Assignment) :
    ∀ (acc : DB × List String) (x : String),
      (∀ a ∈ l, a.chunk_id ≠ x) →
      ((l.foldl cancel_step acc).1).getChunk x = acc.1.getChunk x := by
  induction l with
  | nil => intro acc x _; rfl
  | cons a l ih =>
      intro acc x hne
      rw [List.foldl_cons, ih _ x (fun a' ha' => hne a' (List.mem_cons_of_mem _ ha')),
        cancel_step_fst]
      exact cancelAssignment_getChunk_other acc.1 a x (hne a (List.mem_cons_self _ _))

theorem cancel_fold_clears (l : List Assignment) :
    ∀ (acc : DB × List String) (x : String) (c : WorkChunk),
      acc.1.getChunk x = some c → c.status = ChunkStatus.planned →
      (∃ a ∈ l, a.chunk_id = x) →
      ((l.foldl cancel_step acc).1).getChunk x = some (clearChunk c) := by
  induction l with
  | nil =>
      intro acc x c _ _ hex
      obtain ⟨a, ha, _⟩ := hex
      cases ha
  | cons a l ih =>
      intro acc x c h hst hex
      rw [List.foldl_cons]
      by_cases hax : a.chunk_id = x
      · -- the first naming clears the chunk; the rest of the loop skips it
        have hcleared : ((cancel_step acc a).1).getChunk x = some (clearChunk c) := by
          rw [cancel_step_fst]
          unfold cancelAssignment
          simp only [hax, h, hst, if_pos]
          rw [getChunk_updateChunk acc.1 x x clearChunk (fun c => rfl), h]
          simp [getChunk_id acc.1 x c h]
        exact cancel_fold_getChunk_ne l _ x (clearChunk c) hcleared (by
          simp [clearChunk])
      · have hpres : ((cancel_step acc a).1).getChunk x = some c := by
          rw [cancel_step_fst]
          exact cancelAssignment_getChunk_other acc.1 a x hax ▸ h
        refine ih _ x c hpres hst ?_
        obtain ⟨a', ha', hax'⟩ := hex
        rcases List.mem_cons.mp ha' with h' | h'
        · subst h'; exact absurd hax' hax
        · exact ⟨a', h', hax'⟩

theorem applyAssignment_sessions (db : DB) (a : Assignment) :
    (applyAssignment db a).1.sessions = db.sessions := by
  unfold applyAssignment
  split
  · split <;> rfl
  · rfl

theorem applyAssignment_getChunk_other (db : DB) (a : Assignment) (x : String)
    (hx : a.chunk_id ≠ x) :
    (applyAssignment db a).1.getChunk x = db.getChunk x := by
  unfold applyAssignment
  split
  · split
    · exact getChunk_updateChunk_other db a.chunk_id x _ (fun c => rfl) hx
    · rfl
  · rfl

theorem applyAssignment_getChunk_ne (db : DB) (a : Assignment) (x : String)
    (c : WorkChunk) (h : db.getChunk x = some c) (hst : c.status ≠ ChunkStatus.created) :
    (applyAssignment db a).1.getChunk x = some c := by
  by_cases hx : a.chunk_id = x
  · subst hx
    unfold applyAssignment
    simp only [h, if_neg hst]
  · rw [applyAssignment_getChunk_other db a x hx, h]

theorem apply_step_fst (acc : DB × Nat × List String) (a : Assignment) :
    (apply_step acc a).1 = (applyAssignment acc.1 a).1 := by
  simp only [apply_step]
  split <;> rfl

theorem apply_fold_sessions (l : List Assignment) :
    ∀ acc : DB × Nat × List String,
      ((l.foldl apply_step acc).1).sessions = acc.1.sessions := by
  induction l with
  | nil => intro acc; rfl
  | cons a l ih =>
      intro acc
      rw [List.foldl_cons, ih, apply_step_fst, applyAssignment_sessions]

theorem apply_fold_getChunk_ne (l : List Assignment) :
    ∀ (acc : DB × Nat × List String) (x : String) (c : WorkChunk),
      acc.1.getChunk x = some c → c.status ≠ ChunkStatus.created →
      ((l.foldl apply_step acc).1).getChunk x = some c := by
  induction l with
  | nil => intro acc x c h _; exact h
  | cons a l ih =>
      intro acc x c h hst
      rw [List.foldl_cons]
      refine ih _ x c ?_ hst
      rw [apply_step_fst]
      exact applyAssignment_getChunk_ne acc.1 a x c h hst

/-! ## Claim theorems: frame, idempotence, cancellation totality -/

theorem suggest_slot_state (db : DB) (chunk_id : String) :
    (suggest_slot db chunk_id).2 = db := by
  unfold suggest_slot
  split
  · rfl
  · split
    · rfl
    · split <;> rfl

/-- C9: `suggest_slot` is read-only — whether it succeeds or fails, every
chunk, every work and every planning session is exactly as before the call. -/
theorem suggest_slot_read_only (db : DB) (chunk_id : String) :
    (suggest_slot db chunk_id).2.chunks = db.chunks ∧
    (suggest_slot db chunk_id).2.works = db.works ∧
    (suggest_slot db chunk_id).2.sessions = db.sessions := by
  rw [suggest_slot_state db chunk_id]
  exact ⟨rfl, rfl, rfl⟩

/-- C10: `cancel_session` succeeds for every existing session regardless of
its status; a non-applied session is simply marked cancelled with no chunk or
work modified; only a missing session id yields a failure result. -/
theorem cancel_session_total (db : DB) (sid : String) :
    (db.getSession sid = none → cancel_session db sid = (false, db)) ∧
    (∀ sess, db.getSession sid = some sess →
      (cancel_session db sid).1 = true ∧
      (cancel_session db sid).2.getSession sid =
        some { sess with status := SessionStatus.cancelled } ∧
      (sess.status ≠ SessionStatus.applied →
        (cancel_session db sid).2.chunks = db.chunks ∧
        (cancel_session db sid).2.works = db.works)) := by
  refine ⟨?_, ?_⟩
  · intro h
    unfold cancel_session
    rw [h]
  · intro sess h
    have hid : sess.id = sid := getSession_id db sid sess h
    by_cases hap : sess.status = SessionStatus.applied
    · have hdef : cancel_session db sid =
          (true, ((sess.assignments.foldl cancel_step (db, [])).2.foldl _update_work_status
            (sess.assignments.foldl cancel_step (db, [])).1).updateSession sid
            (fun s => { s with status := SessionStatus.cancelled })) := by
        simp only [cancel_session, h, if_pos hap]
      rw [hdef]
      refine ⟨rfl, ?_, fun hne => absurd hap hne⟩
      dsimp only
      rw [getSession_updateSession _ sid sid
        (fun s => { s with status := SessionStatus.cancelled }) (fun s => rfl)]
      have hsess : (((sess.assignments.foldl cancel_step (db, [])).2.foldl _update_work_status
          (sess.assignments.foldl cancel_step (db, [])).1)).getSession sid = some sess := by
        unfold DB.getSession
        rw [foldl_update_work_status_sessions, cancel_fold_sessions]
        exact h
      rw [hsess]
      simp [hid]
    · have hdef : cancel_session db sid =
          (true, db.updateSession sid (fun s => { s with status := SessionStatus.cancelled })) := by
        simp only [cancel_session, h, if_neg hap]
      rw [hdef]
      refine ⟨rfl, ?_, fun _ => ⟨rfl, rfl⟩⟩
      dsimp only
      rw [getSession_updateSession db sid sid
        (fun s => { s with status := SessionStatus.cancelled }) (fun s => rfl), h]
      simp [hid]

/-- A one-session store exercising `cancel_session_total`. -/
def c10_db : DB :=
  { chunks := [], works := [], engineers := [], time_slots := [], distances := [],
    dc_regions := [], links := [], sessions := [⟨"s", SessionStatus.draft, []⟩], today := 0 }

/-- Witness for `cancel_session_total`: cancelling a draft session succeeds,
marks it cancelled and touches no chunk or work. -/
theorem cancel_session_total_witness :
    (cancel_session c10_db "s").1 = true ∧
    (cancel_session c10_db "s").2.getSession "s" =
      some { PlanningSession.mk "s" SessionStatus.draft [] with status := SessionStatus.cancelled } ∧
    ((cancel_session c10_db "s").2.chunks = c10_db.chunks ∧
      (cancel_session c10_db "s").2.works = c10_db.works) := by
  have h := (cancel_session_total c10_db "s").2 ⟨"s", SessionStatus.draft, []⟩ (by rfl)
  exact ⟨h.1, h.2.1, h.2.2 (by decide)⟩

/-- C7: idempotent unassign — a `planned`/`assigned` chunk is cleared to the
all-null triple in `created` status; any other status is an unchanged success;
running unassign a second time returns success and leaves the state of the
first run untouched. -/
theorem unassign_chunk_idempotent (db : DB) (cid : String) (c : WorkChunk)
    (hc : db.getChunk cid = some c) :
    ((c.status = ChunkStatus.planned ∨ c.status = ChunkStatus.assigned) →
      (unassign_chunk db cid).1.success = true ∧
      (unassign_chunk db cid).2.getChunk cid = some (clearChunk c)) ∧
    (¬(c.status = ChunkStatus.planned ∨ c.status = ChunkStatus.assigned) →
      unassign_chunk db cid = (⟨true, some "Already unassigned", none⟩, db)) ∧
    unassign_chunk (unassign_chunk db cid).2 cid =
      (⟨true, some "Already unassigned", none⟩, (unassign_chunk db cid).2) := by
  have hid : c.id = cid := getChunk_id db cid c hc
  by_cases hs : c.status = ChunkStatus.planned ∨ c.status = ChunkStatus.assigned
  · have hdef : unassign_chunk db cid =
        (⟨true, some "Unassigned", none⟩,
          _update_work_status (db.updateChunk cid clearChunk) c.work_id) := by
      simp only [unassign_chunk, hc, if_pos hs]
    have hafter : (unassign_chunk db cid).2.getChunk cid = some (clearChunk c) := by
      rw [hdef]
      dsimp only
      rw [update_work_status_getChunk,
        getChunk_updateChunk db cid cid clearChunk (fun c => rfl), hc]
      simp [hid]
    refine ⟨fun _ => ⟨by rw [hdef], hafter⟩, fun hcon => absurd hs hcon, ?_⟩
    have h2 : ∀ dbx : DB, dbx.getChunk cid = some (clearChunk c) →
        unassign_chunk dbx cid = (⟨true, some "Already unassigned", none⟩, dbx) := by
      intro dbx hx
      simp only [unassign_chunk, hx]
      simp [clearChunk]
    exact h2 _ hafter
  · have hdef : unassign_chunk db cid = (⟨true, some "Already unassigned", none⟩, db) := by
      simp only [unassign_chunk, hc, if_neg hs]
    refine ⟨fun hcon => absurd hcon hs, fun _ => hdef, ?_⟩
    rw [hdef]
    exact hdef

/-- A store with one planned chunk exercising `unassign_chunk_idempotent`. -/
def c7_db : DB :=
  { chunks := [⟨"c", "w", 0, ChunkStatus.planned, none, [⟨2, 1⟩],
      some "E", some 10, some 9⟩],
    works := [⟨"w", WorkType.general, Priority.medium, WorkStatus.assigned,
      none, none, none, none⟩],
    engineers := [], time_slots := [], distances := [], dc_regions := [],
    links := [], sessions := [], today := 0 }

/-- Witness for `unassign_chunk_idempotent`: unassigning a planned chunk
clears it, and the second unassign is a successful no-op. -/
theorem unassign_chunk_idempotent_witness :
    ((unassign_chunk c7_db "c").1.success = true ∧
      (unassign_chunk c7_db "c").2.getChunk "c" =
        some (clearChunk ⟨"c", "w", 0, ChunkStatus.planned, none, [⟨2, 1⟩],
          some "E", some 10, some 9⟩)) ∧
    unassign_chunk (unassign_chunk c7_db "c").2 "c" =
      (⟨true, some "Already unassigned", none⟩, (unassign_chunk c7_db "c").2) := by
  have h := unassign_chunk_idempotent c7_db "c"
    ⟨"c", "w", 0, ChunkStatus.planned, none, [⟨2, 1⟩], some "E", some 10, some 9⟩ (by rfl)
  exact ⟨h.1 (Or.inl rfl), h.2.2⟩

/-! ## Session apply/cancel claims -/

theorem foldl_update_work_status_getSession (wids : List String) (db : DB) (x : String) :
    (wids.foldl _update_work_status db).getSession x = db.getSession x := by
  unfold DB.getSession
  rw [foldl_update_work_status_sessions]

theorem apply_fold_getSession (l : List Assignment) (acc : DB × Nat × List String)
    (x : String) :
    ((l.foldl apply_step acc).1).getSession x = acc.1.getSession x := by
  unfold DB.getSession
  rw [apply_fold_sessions]

/-- C1 amended: `apply_session` re-validates only that each chunk is still in
`created` status; it performs no overlap re-validation and never aborts — for
any draft session it returns success, marks the session applied, and leaves
every chunk not in `created` status untouched. -/
theorem apply_session_no_revalidation (db : DB) (sid : String) (sess : PlanningSession)
    (hs : db.getSession sid = some sess) (hd : sess.status = SessionStatus.draft) :
    (apply_session db sid).1.1 = true ∧
    (apply_session db sid).2.getSession sid =
      some { sess with status := SessionStatus.applied } ∧
    (∀ x c, db.getChunk x = some c → c.status ≠ ChunkStatus.created →
      (apply_session db sid).2.getChunk x = some c) := by
  have hid : sess.id = sid := getSession_id db sid sess hs
  have hdef : apply_session db sid =
      ((true, (sess.assignments.foldl apply_step (db, 0, [])).2.1),
        (sess.assignments.foldl apply_step (db, 0, [])).2.2.foldl _update_work_status
          ((sess.assignments.foldl apply_step (db, 0, [])).1.updateSession sid
            (fun s => { s with status := SessionStatus.applied }))) := by
    simp only [apply_session, hs, if_pos hd]
  rw [hdef]
  refine ⟨rfl, ?_, ?_⟩
  · dsimp only
    rw [foldl_update_work_status_getSession]
    rw [getSession_updateSession _ sid sid
      (fun s => { s with status := SessionStatus.applied }) (fun s => rfl)]
    rw [apply_fold_getSession sess.assignments (db, 0, []) sid, hs]
    simp [hid]
  · intro x c hcx hst
    dsimp only
    rw [foldl_update_work_status_getChunk]
    exact apply_fold_getChunk_ne sess.assignments (db, 0, []) x c hcx hst

/-- Two draft sessions proposing the same engineer-day hours for two distinct
chunks of one work. -/
def c1_db : DB :=
  { chunks := [
      ⟨"c1", "w", 0, ChunkStatus.created, some "A", [⟨4, 1⟩], none, none, none⟩,
      ⟨"c2", "w", 1, ChunkStatus.created, some "A", [⟨4, 1⟩], none, none, none⟩],
    works := [⟨"w", WorkType.general, Priority.medium, WorkStatus.scheduling,
      none, none, none, none⟩],
    engineers := [⟨"E", "Eve", "R"⟩],
    time_slots := [], distances := [], dc_regions := [], links := [],
    sessions := [
      ⟨"s1", SessionStatus.draft, [⟨"c1", "w", "E", 10, 9, 4, some "A"⟩]⟩,
      ⟨"s2", SessionStatus.draft, [⟨"c2", "w", "E", 10, 9, 4, some "A"⟩]⟩],
    today := 0 }

/-- Witness for `apply_session_no_revalidation`: applying the first draft
session succeeds and marks it applied. -/
theorem apply_session_no_revalidation_witness :
    (apply_session c1_db "s1").1.1 = true ∧
    (apply_session c1_db "s1").2.getSession "s1" =
      some { PlanningSession.mk "s1" SessionStatus.draft
        [⟨"c1", "w", "E", 10, 9, 4, some "A"⟩] with status := SessionStatus.applied } :=
  ⟨(apply_session_no_revalidation c1_db "s1"
      ⟨"s1", SessionStatus.draft, [⟨"c1", "w", "E", 10, 9, 4, some "A"⟩]⟩ rfl rfl).1,
    (apply_session_no_revalidation c1_db "s1"
      ⟨"s1", SessionStatus.draft, [⟨"c1", "w", "E", 10, 9, 4, some "A"⟩]⟩ rfl rfl).2.1⟩

/-- Counterexample to C1 as stated: both overlapping draft sessions apply
successfully one after the other, and the travel-aware no-overlap invariant
(which held before) is violated afterwards — nothing aborted. -/
theorem apply_session_overlap_cex :
    (apply_session c1_db "s1").1.1 = true ∧
    (apply_session (apply_session c1_db "s1").2 "s2").1.1 = true ∧
    no_overlap_invariant c1_db "E" 10 = true ∧
    no_overlap_invariant (apply_session (apply_session c1_db "s1").2 "s2").2 "E" 10 = false := by
  refine ⟨rfl, rfl, rfl, rfl⟩

/-- C5 amended: cancelling an applied session reverts exactly those
assignments whose chunk is still in `planned` status — the persisted triple is
not compared against the session's assignment — clearing them to `created`
with an all-null triple, leaving every other chunk untouched, and marks the
session cancelled. -/
theorem cancel_session_status_only (db : DB) (sid : String) (sess : PlanningSession)
    (hs : db.getSession sid = some sess) (ha : sess.status = SessionStatus.applied) :
    (cancel_session db sid).1 = true ∧
    (cancel_session db sid).2.getSession sid =
      some { sess with status := SessionStatus.cancelled } ∧
    (∀ x c, db.getChunk x = some c → c.status ≠ ChunkStatus.planned →
      (cancel_session db sid).2.getChunk x = some c) ∧
    (∀ x c, db.getChunk x = some c → (∀ a ∈ sess.assignments, a.chunk_id ≠ x) →
      (cancel_session db sid).2.getChunk x = some c) ∧
    (∀ x c, db.getChunk x = some c → c.status = ChunkStatus.planned →
      (∃ a ∈ sess.assignments, a.chunk_id = x) →
      (cancel_session db sid).2.getChunk x = some (clearChunk c)) := by
  have hid : sess.id = sid := getSession_id db sid sess hs
  have hdef : cancel_session db sid =
      (true, ((sess.assignments.foldl cancel_step (db, [])).2.foldl _update_work_status
        (sess.assignments.foldl cancel_step (db, [])).1).updateSession sid
        (fun s => { s with status := SessionStatus.cancelled })) := by
    simp only [cancel_session, hs, if_pos ha]
  rw [hdef]
  have hgetc : ∀ x : String,
      ((((sess.assignments.foldl cancel_step (db, [])).2.foldl _update_work_status
        (sess.assignments.foldl cancel_step (db, [])).1).updateSession sid
        (fun s => { s with status := SessionStatus.cancelled }))).getChunk x =
      ((sess.assignments.foldl cancel_step (db, [])).1).getChunk x := by
    intro x
    show ((sess.assignments.foldl cancel_step (db, [])).2.foldl _update_work_status
      (sess.assignments.foldl cancel_step (db, [])).1).getChunk x = _
    rw [foldl_update_work_status_getChunk]
  refine ⟨rfl, ?_, ?_, ?_, ?_⟩
  · dsimp only
    rw [getSession_updateSession _ sid sid
      (fun s => { s with status := SessionStatus.cancelled }) (fun s => rfl)]
    have hsess : (((sess.assignments.foldl cancel_step (db, [])).2.foldl _update_work_status
        (sess.assignments.foldl cancel_step (db, [])).1)).getSession sid = some sess := by
      unfold DB.getSession
      rw [foldl_update_work_status_sessions, cancel_fold_sessions]
      exact hs
    rw [hsess]
    simp [hid]
  · intro x c hcx hst
    dsimp only
    rw [hgetc x]
    exact cancel_fold_getChunk_ne sess.assignments (db, []) x c hcx hst
  · intro x c hcx hun
    dsimp only
    rw [hgetc x, cancel_fold_getChunk_unnamed sess.assignments (db, []) x hun]
    exact hcx
  · intro x c hcx hst hex
    dsimp only
    rw [hgetc x]
    exact cancel_fold_clears sess.assignments (db, []) x c hcx hst hex

/-- Witness for `cancel_session_status_only`: an applied session over one
still-planned chunk; cancel reverts the chunk and marks the session. -/
def c5w_db : DB :=
  { chunks := [⟨"c", "w", 0, ChunkStatus.planned, none, [⟨2, 1⟩],
      some "E1", some 10, some 9⟩],
    works := [⟨"w", WorkType.general, Priority.medium, WorkStatus.assigned,
      none, none, none, none⟩],
    engineers := [], time_slots := [], distances := [], dc_regions := [],
    links := [],
    sessions := [⟨"s", SessionStatus.applied, [⟨"c", "w", "E1", 10, 9, 2, none⟩]⟩],
    today := 0 }

theorem cancel_session_status_only_witness :
    (cancel_session c5w_db "s").1 = true ∧
    (cancel_session c5w_db "s").2.getChunk "c" =
      some (clearChunk ⟨"c", "w", 0, ChunkStatus.planned, none, [⟨2, 1⟩],
        some "E1", some 10, some 9⟩) := by
  have h := cancel_session_status_only c5w_db "s"
    ⟨"s", SessionStatus.applied, [⟨"c", "w", "E1", 10, 9, 2, none⟩]⟩ (by rfl) (by rfl)
  refine ⟨h.1, ?_⟩
  exact h.2.2.2.2 "c"
    ⟨"c", "w", 0, ChunkStatus.planned, none, [⟨2, 1⟩], some "E1", some 10, some 9⟩
    (by rfl) (by rfl) ⟨⟨"c", "w", "E1", 10, 9, 2, none⟩, by simp, rfl⟩

/-- An applied session whose chunk was independently re-planned in between:
the persisted triple `("E2", 11, 10)` no longer matches the session's
`("E1", 10, 9)`. -/
def c5_db : DB :=
  { chunks := [⟨"c", "w", 0, ChunkStatus.planned, none, [⟨2, 1⟩],
      some "E2", some 11, some 10⟩],
    works := [⟨"w", WorkType.general, Priority.medium, WorkStatus.assigned,
      none, none, none, none⟩],
    engineers := [], time_slots := [], distances := [], dc_regions := [],
    links := [],
    sessions := [⟨"s", SessionStatus.applied, [⟨"c", "w", "E1", 10, 9, 2, none⟩]⟩],
    today := 0 }

/-- Counterexample to C5 as stated: the chunk's triple does not match the
session's assignment, so by the claim cancel should leave it at the
independent mutation; the code reverts it to `created` with a null triple
anyway — only the status is checked. -/
theorem cancel_session_triple_cex :
    c5_db.getChunk "c" =
      some ⟨"c", "w", 0, ChunkStatus.planned, none, [⟨2, 1⟩],
        some "E2", some 11, some 10⟩ ∧
    ((some "E2", some 11, some 10) ≠
      ((some "E1", some 10, some 9) : Option String × Option Nat × Option Nat)) ∧
    (cancel_session c5_db "s").2.getChunk "c" =
      some ⟨"c", "w", 0, ChunkStatus.created, none, [⟨2, 1⟩], none, none, none⟩ := by
  refine ⟨rfl, by decide, rfl⟩

/-! ## Work-status automaton claims -/

/-- The work-status automaton exactly as the claim words it (the comparison
definition for the refinement check): `in_progress ∈ S → in_progress`; else
all completed → `completed`; else some planned/assigned and some created →
`scheduling`; else some planned/assigned and none created → `assigned`;
else unchanged. -/
def claim_work_status (current : WorkStatus) (S : List ChunkStatus) : WorkStatus :=
  if ChunkStatus.in_progress ∈ S then WorkStatus.in_progress
  else if ∀ s ∈ S, s = ChunkStatus.completed then WorkStatus.completed
  else if (ChunkStatus.planned ∈ S ∨ ChunkStatus.assigned ∈ S) ∧
      ChunkStatus.created ∈ S then WorkStatus.scheduling
  else if (ChunkStatus.planned ∈ S ∨ ChunkStatus.assigned ∈ S) ∧
      ¬ChunkStatus.created ∈ S then WorkStatus.assigned
  else current

/-- C6 amended: the claimed automaton is exactly the one computed by
`PlanningService._update_work_status`; the `SchedulingServiceV2` updater used
by the bulk session operations differs (see the counterexample). -/
theorem planning_work_status_automaton (current : WorkStatus) (S : List ChunkStatus) :
    planning_new_status current S = claim_work_status current S := by
  unfold planning_new_status claim_work_status
  by_cases h1 : ChunkStatus.in_progress ∈ S
  · rw [if_pos h1, if_pos h1]
  · rw [if_neg h1, if_neg h1]
    by_cases h2 : ∀ s ∈ S, s = ChunkStatus.completed
    · rw [if_pos h2, if_pos h2]
    · rw [if_neg h2, if_neg h2]
      by_cases h3 : ChunkStatus.planned ∈ S ∨ ChunkStatus.assigned ∈ S
      · by_cases h4 : ChunkStatus.created ∈ S
        · rw [if_pos h3, if_pos h4, if_pos (And.intro h3 h4)]
        · rw [if_pos h3, if_neg h4, if_neg (fun hc => h4 hc.2),
            if_pos (And.intro h3 h4)]
      · rw [if_neg h3, if_neg (fun hc => h3 hc.1), if_neg (fun hc => h3 hc.1)]

/-- A general work with a single planned chunk. -/
def c6_db : DB :=
  { chunks := [⟨"c", "w", 0, ChunkStatus.planned, none, [⟨2, 1⟩],
      some "E", some 10, some 9⟩],
    works := [⟨"w", WorkType.general, Priority.medium, WorkStatus.scheduling,
      none, none, none, none⟩],
    engineers := [], time_slots := [], distances := [], dc_regions := [],
    links := [], sessions := [], today := 0 }

/-- Counterexample to C6 as stated: with chunk statuses `[planned]` the claim
prescribes `assigned` (some planned, none created), but the
`SchedulingServiceV2._update_work_status` updater — one of the two updaters
the operations use — sets the work to `in_progress`. -/
theorem work_status_automaton_cex :
    (schedv2_update_work_status c6_db "w").getWork "w" =
      some ⟨"w", WorkType.general, Priority.medium, WorkStatus.in_progress,
        none, none, none, none⟩ ∧
    claim_work_status WorkStatus.scheduling [ChunkStatus.planned] = WorkStatus.assigned ∧
    WorkStatus.in_progress ≠ WorkStatus.assigned := by
  refine ⟨rfl, by decide, by decide⟩

/-! ## Sync pinning claims -/

/-- C4 amended: the sync pinning holds for
`SchedulingServiceV2._get_date_constraints` — a sync peer's assigned date `D`
restricts the window to exactly `[D, D]`; `PlanningService._get_date_window`,
which `suggest_slot` uses, ignores sync links (see the counterexample). -/
theorem sync_pinned_window_v2 (db : DB) (chunk : WorkChunk) (work : Work) (D : Nat)
    (hsync : v2_sync_date db chunk.id = some D) :
    (v2_get_date_constraints db chunk work).1 = D ∧
    (v2_get_date_constraints db chunk work).2.1 = D := by
  simp only [v2_get_date_constraints, hsync]
  constructor <;> trivial

/-- A pair of sync-linked chunks with the peer assigned to day 105. -/
def c4w_db : DB :=
  { chunks := [
      ⟨"x", "w", 0, ChunkStatus.created, none, [⟨4, 1⟩], none, none, none⟩,
      ⟨"y", "w", 1, ChunkStatus.planned, none, [⟨2, 1⟩], some "E", some 105, some 9⟩],
    works := [⟨"w", WorkType.general, Priority.medium, WorkStatus.scheduling,
      none, none, none, none⟩],
    engineers := [], time_slots := [], distances := [], dc_regions := [],
    links := [⟨"x", "y", ChunkLinkType.sync⟩], sessions := [], today := 100 }

theorem sync_pinned_window_v2_witness :
    (v2_get_date_constraints c4w_db
      ⟨"x", "w", 0, ChunkStatus.created, none, [⟨4, 1⟩], none, none, none⟩
      ⟨"w", WorkType.general, Priority.medium, WorkStatus.scheduling,
        none, none, none, none⟩).1 = 105 ∧
    (v2_get_date_constraints c4w_db
      ⟨"x", "w", 0, ChunkStatus.created, none, [⟨4, 1⟩], none, none, none⟩
      ⟨"w", WorkType.general, Priority.medium, WorkStatus.scheduling,
        none, none, none, none⟩).2.1 = 105 :=
  sync_pinned_window_v2 c4w_db
    ⟨"x", "w", 0, ChunkStatus.created, none, [⟨4, 1⟩], none, none, none⟩
    ⟨"w", WorkType.general, Priority.medium, WorkStatus.scheduling,
      none, none, none, none⟩ 105 (by rfl)

/-- A chunk `x` sync-linked to `y`, which is already assigned to day 101;
`x`'s engineer only works on day 100 inside the window `[100, 102]`. -/
def c4_db : DB :=
  { chunks := [
      ⟨"x", "w", 0, ChunkStatus.created, none, [⟨4, 1⟩], none, none, none⟩,
      ⟨"y", "w2", 0, ChunkStatus.planned, none, [⟨2, 1⟩], some "E", some 101, some 9⟩],
    works := [
      ⟨"w", WorkType.general, Priority.medium, WorkStatus.scheduling,
        some 102, none, none, none⟩,
      ⟨"w2", WorkType.general, Priority.medium, WorkStatus.assigned,
        none, none, none, none⟩],
    engineers := [⟨"E", "Eve", "R"⟩],
    time_slots := [⟨"E", 100, 9, 18⟩],
    distances := [], dc_regions := [],
    links := [⟨"x", "y", ChunkLinkType.sync⟩], sessions := [], today := 100 }

/-- Counterexample to C4 as stated: chunk `x` has a sync peer pinned to day
101, yet `suggest_slot` succeeds with day 100 — the search window of
`PlanningService._get_date_window` is not restricted to the pinned date. -/
theorem sync_pinning_cex :
    v2_sync_date c4_db "x" = some 101 ∧
    (suggest_slot c4_db "x").1.success = true ∧
    ((suggest_slot c4_db "x").1.suggestion.map (fun s => s.date)) = some 100 ∧
    (100 : Nat) ≠ 101 := by
  refine ⟨rfl, rfl, rfl, by decide⟩

/-! ## Dense strategy claims -/

/-- Embeds `used + duration <= available` — the candidate still fits its
engineer-day. -/
def denseFits (load : String → Nat → Nat × Nat) (c : SlotSuggestion) : Prop :=
  (load c.engineer_id c.date).1 + c.duration_hours ≤ (load c.engineer_id c.date).2

instance (load : String → Nat → Nat × Nat) (c : SlotSuggestion) :
    Decidable (denseFits load c) := by
  unfold denseFits; infer_instance

/-- The candidate's current `used / capacity` ratio. -/
def denseLoadRatio (load : String → Nat → Nat × Nat) (c : SlotSuggestion) : ℚ :=
  denseRatio (load c.engineer_id c.date).1 (load c.engineer_id c.date).2

theorem denseRatio_nonneg (u a : Nat) : 0 ≤ denseRatio u a := by
  unfold denseRatio
  split
  · positivity
  · exact le_refl 0

theorem denseLoadRatio_nonneg (load : String → Nat → Nat × Nat) (c : SlotSuggestion) :
    0 ≤ denseLoadRatio load c :=
  denseRatio_nonneg _ _

theorem dense_select_step_eq (load : String → Nat → Nat × Nat)
    (acc : Option SlotSuggestion × ℚ) (c : SlotSuggestion) :
    dense_select_step load acc c =
      if denseFits load c then
        (if acc.2 < denseLoadRatio load c then (some c, denseLoadRatio load c)
         else if denseLoadRatio load c = acc.2 then
           (match acc.1 with
            | some b => if c.date < b.date then (some c, acc.2) else acc
            | none => acc)
         else acc)
      else acc := rfl

theorem dense_fold_skip (load : String → Nat → Nat × Nat) (l : List SlotSuggestion) :
    ∀ acc : Option SlotSuggestion × ℚ, (∀ c ∈ l, ¬denseFits load c) →
      l.foldl (dense_select_step load) acc = acc := by
  induction l with
  | nil => intro acc _; rfl
  | cons c l ih =>
      intro acc hun
      rw [List.foldl_cons, dense_select_step_eq,
        if_neg (hun c (List.mem_cons_self _ _))]
      exact ih acc (fun c' hc' => hun c' (List.mem_cons_of_mem _ hc'))

/-- Loop invariant of `DenseStrategy.select_best_slot`: the accumulator holds
a fitting candidate of maximal ratio among the fitting candidates seen so far,
with ties resolved towards the earliest date; `none` means nothing fitted and
the threshold is still `-1`. -/
theorem dense_fold_spec (load : String → Nat → Nat × Nat) :
    ∀ (l : List SlotSuggestion) (acc : Option SlotSuggestion × ℚ),
      (acc.1 = none → acc.2 = -1) →
      (∀ b, acc.1 = some b → denseFits load b ∧ acc.2 = denseLoadRatio load b) →
      ((l.foldl (dense_select_step load) acc).1 = none →
          acc.1 = none ∧ ∀ c ∈ l, ¬denseFits load c) ∧
      (∀ b, (l.foldl (dense_select_step load) acc).1 = some b →
          denseFits load b ∧
          (l.foldl (dense_select_step load) acc).2 = denseLoadRatio load b ∧
          (b ∈ l ∨ acc.1 = some b)) ∧
      acc.2 ≤ (l.foldl (dense_select_step load) acc).2 ∧
      (∀ b, acc.1 = some b →
          (l.foldl (dense_select_step load) acc).2 = acc.2 →
          ∃ b2, (l.foldl (dense_select_step load) acc).1 = some b2 ∧
            b2.date ≤ b.date) ∧
      (∀ c ∈ l, denseFits load c →
          denseLoadRatio load c < (l.foldl (dense_select_step load) acc).2 ∨
          (denseLoadRatio load c = (l.foldl (dense_select_step load) acc).2 ∧
            ∃ b2, (l.foldl (dense_select_step load) acc).1 = some b2 ∧
              b2.date ≤ c.date)) := by
  intro l
  induction l with
  | nil =>
      intro acc hnone hsome
      refine ⟨fun h => ⟨h, fun c hc => absurd hc (List.not_mem_nil c)⟩,
        fun b hb => ⟨(hsome b hb).1, (hsome b hb).2, Or.inr hb⟩,
        le_refl _,
        fun b hb _ => ⟨b, hb, le_refl _⟩,
        fun c hc => absurd hc (List.not_mem_nil c)⟩
  | cons c l ih =>
      intro acc hnone hsome
      rw [List.foldl_cons]
      by_cases hfit : denseFits load c
      · by_cases hlt : acc.2 < denseLoadRatio load c
        · -- strictly better ratio: the accumulator is replaced by `c`
          have hstep : dense_select_step load acc c = (some c, denseLoadRatio load c) := by
            rw [dense_select_step_eq, if_pos hfit, if_pos hlt]
          rw [hstep]
          obtain ⟨ih1, ih2, ih3, ih4, ih5⟩ := ih (some c, denseLoadRatio load c)
            (fun h => absurd h (by simp))
            (fun b hb => by
              cases hb
              exact ⟨hfit, rfl⟩)
          have hout2 : denseLoadRatio load c ≤
              (l.foldl (dense_select_step load) (some c, denseLoadRatio load c)).2 := ih3
          refine ⟨?_, ?_, ?_, ?_, ?_⟩
          · intro h
            exact absurd (ih1 h).1 (by simp)
          · intro b hb
            obtain ⟨hf, he, hm⟩ := ih2 b hb
            refine ⟨hf, he, ?_⟩
            rcases hm with hm | hm
            · exact Or.inl (List.mem_cons_of_mem _ hm)
            · cases hm
              exact Or.inl (List.mem_cons_self _ _)
          · exact le_trans (le_of_lt hlt) hout2
          · intro b hb hval
            exfalso
            have h1 : acc.2 = denseLoadRatio load b := (hsome b hb).2
            have := lt_of_lt_of_le hlt hout2
            rw [hval] at this
            exact lt_irrefl _ this
          · intro c' hc' hfc'
            rcases List.mem_cons.mp hc' with h' | h'
            · subst h'
              rcases lt_or_eq_of_le hout2 with hcase | hcase
              · exact Or.inl hcase
              · refine Or.inr ⟨hcase, ?_⟩
                obtain ⟨b2, hb2, hb2d⟩ := ih4 c' rfl hcase.symm
                exact ⟨b2, hb2, hb2d⟩
            · exact ih5 c' h' hfc'
        · by_cases heq : denseLoadRatio load c = acc.2
          · -- equal ratio: tie-break by date against the current best
            have hb0 : ∃ b0, acc.1 = some b0 := by
              cases hacc : acc.1 with
              | none =>
                  exfalso
                  have := hnone hacc
                  rw [this] at heq
                  have := denseLoadRatio_nonneg load c
                  rw [heq] at this
                  norm_num at this
              | some b0 => exact ⟨b0, rfl⟩
            obtain ⟨b0, hb0⟩ := hb0
            have hstep : dense_select_step load acc c =
                (if c.date < b0.date then (some c, acc.2) else acc) := by
              rw [dense_select_step_eq, if_pos hfit, if_neg hlt, if_pos heq, hb0]
            by_cases hdate : c.date < b0.date
            · rw [hstep, if_pos hdate]
              obtain ⟨ih1, ih2, ih3, ih4, ih5⟩ := ih (some c, acc.2)
                (fun h => absurd h (by simp))
                (fun b hb => by
                  cases hb
                  exact ⟨hfit, heq.symm⟩)
              refine ⟨?_, ?_, ?_, ?_, ?_⟩
              · intro h
                exact absurd (ih1 h).1 (by simp)
              · intro b hb
                obtain ⟨hf, he, hm⟩ := ih2 b hb
                refine ⟨hf, he, ?_⟩
                rcases hm with hm | hm
                · exact Or.inl (List.mem_cons_of_mem _ hm)
                · cases hm
                  exact Or.inl (List.mem_cons_self _ _)
              · exact ih3
              · intro b hb hval
                rw [hb0] at hb
                cases hb
                obtain ⟨b2, hb2, hb2d⟩ := ih4 c rfl hval
                exact ⟨b2, hb2, le_trans hb2d (le_of_lt hdate)⟩
              · intro c' hc' hfc'
                rcases List.mem_cons.mp hc' with h' | h'
                · subst h'
                  have hout2 := ih3
                  rcases lt_or_eq_of_le hout2 with hcase | hcase
                  · exact Or.inl (by rw [heq]; exact hcase)
                  · refine Or.inr ⟨heq.trans hcase, ?_⟩
                    obtain ⟨b2, hb2, hb2d⟩ := ih4 c' rfl hcase.symm
                    exact ⟨b2, hb2, hb2d⟩
                · exact ih5 c' h' hfc'
            · rw [hstep, if_neg hdate]
              obtain ⟨ih1, ih2, ih3, ih4, ih5⟩ := ih acc hnone hsome
              refine ⟨?_, ?_, ih3, ih4, ?_⟩
              · intro h
                exfalso
                have := (ih1 h).1
                rw [this] at hb0
                cases hb0
              · intro b hb
                obtain ⟨hf, he, hm⟩ := ih2 b hb
                refine ⟨hf, he, ?_⟩
                rcases hm with hm | hm
                · exact Or.inl (List.mem_cons_of_mem _ hm)
                · exact Or.inr hm
              · intro c' hc' hfc'
                rcases List.mem_cons.mp hc' with h' | h'
                · subst h'
                  have hout2 := ih3
                  have hle : denseLoadRatio load c' ≤
                      (l.foldl (dense_select_step load) acc).2 := by
                    rw [heq]; exact hout2
                  rcases lt_or_eq_of_le hle with hcase | hcase
                  · exact Or.inl hcase
                  · refine Or.inr ⟨hcase, ?_⟩
                    obtain ⟨b2, hb2, hb2d⟩ := ih4 b0 hb0 (by rw [← hcase, heq])
                    have hb0d : b0.date ≤ c'.date := le_of_not_lt hdate
                    exact ⟨b2, hb2, le_trans hb2d hb0d⟩
                · exact ih5 c' h' hfc'
          · -- worse ratio: the accumulator survives unchanged
            have hgt : denseLoadRatio load c < acc.2 :=
              lt_of_le_of_ne (le_of_not_lt hlt) heq
            have hstep : dense_select_step load acc c = acc := by
              rw [dense_select_step_eq, if_pos hfit, if_neg hlt, if_neg heq]
            rw [hstep]
            obtain ⟨ih1, ih2, ih3, ih4, ih5⟩ := ih acc hnone hsome
            refine ⟨?_, ?_, ih3, ih4, ?_⟩
            · intro h
              exfalso
              have hacc := (ih1 h).1
              have := hnone hacc
              rw [this] at hgt
              have h0 := denseLoadRatio_nonneg load c
              have := lt_of_le_of_lt h0 hgt
              norm_num at this
            · intro b hb
              obtain ⟨hf, he, hm⟩ := ih2 b hb
              refine ⟨hf, he, ?_⟩
              rcases hm with hm | hm
              · exact Or.inl (List.mem_cons_of_mem _ hm)
              · exact Or.inr hm
            · intro c' hc' hfc'
              rcases List.mem_cons.mp hc' with h' | h'
              · subst h'
                exact Or.inl (lt_of_lt_of_le hgt ih3)
              · exact ih5 c' h' hfc'
      · -- the candidate does not fit: skipped entirely
        have hstep : dense_select_step load acc c = acc := by
          rw [dense_select_step_eq, if_neg hfit]
        rw [hstep]
        obtain ⟨ih1, ih2, ih3, ih4, ih5⟩ := ih acc hnone hsome
        refine ⟨?_, ?_, ih3, ih4, ?_⟩
        · intro h
          obtain ⟨ha, hl⟩ := ih1 h
          refine ⟨ha, fun c' hc' => ?_⟩
          rcases List.mem_cons.mp hc' with h' | h'
          · subst h'; exact hfit
          · exact hl c' h'
        · intro b hb
          obtain ⟨hf, he, hm⟩ := ih2 b hb
          refine ⟨hf, he, ?_⟩
          rcases hm with hm | hm
          · exact Or.inl (List.mem_cons_of_mem _ hm)
          · exact Or.inr hm
        · intro c' hc' hfc'
          rcases List.mem_cons.mp hc' with h' | h'
          · subst h'; exact absurd hfc' hfit
          · exact ih5 c' h' hfc'

/-- C8 amended: the dense queue is the stable sort by
`(support-first, priority rank, decreasing duration, chunk order)` — within
equal support flag and priority, longer chunks come first; over a non-empty
candidate list the selector returns a member: among the fitting candidates
(`used + duration ≤ capacity`) it picks one with the maximal current
`used/capacity` ratio with ties broken towards the earliest date, and it
falls back to the first candidate exactly when no candidate fits at all. -/
theorem dense_strategy_spec :
    (∀ l : List (WorkChunk × Work),
      List.Sorted DenseRel (dense_sort_chunks l) ∧
      (dense_sort_chunks l).Perm l ∧
      (∀ a b : WorkChunk × Work, a.2.work_type = b.2.work_type →
        a.2.priority = b.2.priority →
        b.1.duration_hours < a.1.duration_hours → DenseRel a b)) ∧
    (∀ (load : String → Nat → Nat × Nat) (cands : List SlotSuggestion)
      (c0 : SlotSuggestion), cands.head? = some c0 →
      ∃ r, dense_select_best_slot load cands = some r ∧ r ∈ cands ∧
        ((∀ c ∈ cands, ¬denseFits load c) → r = c0) ∧
        ((∃ c ∈ cands, denseFits load c) →
          denseFits load r ∧
          ∀ c ∈ cands, denseFits load c →
            denseLoadRatio load c < denseLoadRatio load r ∨
            (denseLoadRatio load c = denseLoadRatio load r ∧
              r.date ≤ c.date))) := by
  constructor
  · intro l
    refine ⟨List.sorted_insertionSort DenseRel l, List.perm_insertionSort DenseRel l, ?_⟩
    intro a b ht hp hd
    unfold DenseRel lex4 denseKey
    dsimp only
    rw [ht, hp]
    exact Or.inr ⟨rfl, Or.inr ⟨rfl, Or.inl (by omega)⟩⟩
  · intro load cands c0 hhead
    cases cands with
    | nil => cases hhead
    | cons c0' rest =>
        have hc0 : c0 = c0' := by
          simp only [List.head?_cons, Option.some.injEq] at hhead
          exact hhead.symm
        subst hc0
        obtain ⟨inv1, inv2, _, _, inv5⟩ :=
          dense_fold_spec load (c0 :: rest) (none, -1)
            (fun _ => rfl) (fun b hb => by cases hb)
        cases hout : ((c0 :: rest).foldl (dense_select_step load) (none, -1)).1 with
        | some b =>
            have hsel : dense_select_best_slot load (c0 :: rest) = some b := by
              unfold dense_select_best_slot
              rw [hout]
            obtain ⟨hf, he, hm⟩ := inv2 b hout
            have hmem : b ∈ c0 :: rest := by
              rcases hm with hm | hm
              · exact hm
              · cases hm
            refine ⟨b, hsel, hmem, ?_, ?_⟩
            · intro hall
              exfalso
              have := dense_fold_skip load (c0 :: rest) (none, -1) hall
              rw [this] at hout
              cases hout
            · intro _
              refine ⟨hf, fun c hc hfc => ?_⟩
              rcases inv5 c hc hfc with hcase | ⟨hceq, b2, hb2, hb2d⟩
              · exact Or.inl (by rw [← he]; exact hcase)
              · rw [hout] at hb2
                cases hb2
                exact Or.inr ⟨by rw [← he]; exact hceq, hb2d⟩
        | none =>
            have hsel : dense_select_best_slot load (c0 :: rest) = some c0 := by
              unfold dense_select_best_slot
              rw [hout]
            obtain ⟨_, hall⟩ := inv1 hout
            refine ⟨c0, hsel, List.mem_cons_self _ _, fun _ => rfl, ?_⟩
            intro hex
            obtain ⟨c, hc, hfc⟩ := hex
            exact absurd hfc (hall c hc)

/-- Witness for `dense_strategy_spec`: over a singleton candidate list under a
constant load oracle, the selector returns that candidate. -/
theorem dense_strategy_spec_witness :
    dense_select_best_slot (fun _ _ => (0, 8))
      [⟨"E", "Eve", 3, 9, 11, 2, none⟩] =
      some ⟨"E", "Eve", 3, 9, 11, 2, none⟩ := by
  obtain ⟨r, hsel, hmem, -, -⟩ :=
    dense_strategy_spec.2 (fun _ _ => (0, 8))
      [⟨"E", "Eve", 3, 9, 11, 2, none⟩] ⟨"E", "Eve", 3, 9, 11, 2, none⟩ rfl
  have hr : r = ⟨"E", "Eve", 3, 9, 11, 2, none⟩ := by
    simpa using hmem
  rw [hr] at hsel
  exact hsel

/-- An engineer free for 8 hours on days 3 and 5. -/
def c8_db : DB :=
  { chunks := [], works := [], engineers := [⟨"E", "Eve", "R"⟩],
    time_slots := [⟨"E", 3, 9, 17⟩, ⟨"E", 5, 9, 17⟩],
    distances := [], dc_regions := [], links := [], sessions := [], today := 0 }

/-- Counterexample to C8 as stated: both candidates have a zero `used`
load — no positively-loaded option exists — yet the selector does not fall
back to the first candidate: the ratio-0 candidates compete normally and the
date tie-break picks the second one. -/
theorem dense_fallback_cex :
    (calculate_load c8_db [] "E" 5 5).1 = 0 ∧
    (calculate_load c8_db [] "E" 3 3).1 = 0 ∧
    DenseStrategy_select c8_db []
      [⟨"E", "Eve", 5, 9, 11, 2, none⟩, ⟨"E", "Eve", 3, 9, 11, 2, none⟩] =
      some ⟨"E", "Eve", 3, 9, 11, 2, none⟩ ∧
    (⟨"E", "Eve", 3, 9, 11, 2, none⟩ : SlotSuggestion) ≠
      ⟨"E", "Eve", 5, 9, 11, 2, none⟩ := by
  have hratio : denseRatio 0 8 = 0 := by
    unfold denseRatio
    norm_num
  have hsel : DenseStrategy_select c8_db []
      [⟨"E", "Eve", 5, 9, 11, 2, none⟩, ⟨"E", "Eve", 3, 9, 11, 2, none⟩] =
      some ⟨"E", "Eve", 3, 9, 11, 2, none⟩ := by
    unfold DenseStrategy_select dense_select_best_slot
    rw [List.foldl_cons, List.foldl_cons, List.foldl_nil]
    have h1 : dense_select_step (fun e d => calculate_load c8_db [] e d d) (none, -1)
        ⟨"E", "Eve", 5, 9, 11, 2, none⟩ =
        (some ⟨"E", "Eve", 5, 9, 11, 2, none⟩, 0) := by
      rw [dense_select_step_eq, if_pos (by decide)]
      have hr : denseLoadRatio (fun e d => calculate_load c8_db [] e d d)
          ⟨"E", "Eve", 5, 9, 11, 2, none⟩ = 0 := by
        show denseRatio 0 8 = 0
        exact hratio
      rw [hr, if_pos (by norm_num)]
    have h2 : dense_select_step (fun e d => calculate_load c8_db [] e d d)
        (some ⟨"E", "Eve", 5, 9, 11, 2, none⟩, 0)
        ⟨"E", "Eve", 3, 9, 11, 2, none⟩ =
        (some ⟨"E", "Eve", 3, 9, 11, 2, none⟩, 0) := by
      rw [dense_select_step_eq, if_pos (by decide)]
      have hr : denseLoadRatio (fun e d => calculate_load c8_db [] e d d)
          ⟨"E", "Eve", 3, 9, 11, 2, none⟩ = 0 := by
        show denseRatio 0 8 = 0
        exact hratio
      rw [hr, if_neg (by norm_num), if_pos (by norm_num)]
      dsimp only
      rw [if_pos (by decide)]
    rw [h1, h2]
  refine ⟨rfl, rfl, hsel, by decide⟩

end Calendar
